import Mathlib

/-!
# prebid-cache: the Azure table backend

A shallow embedding of `backends/azure_table.go` and of the library routines it
calls, followed by theorems about `Get`, `Put`, `signReq`, `makePartitionKey`
and `wrapForHeader`.

Conventions of the embedding.

* A Go `string` (and a `[]byte`) is a sequence of bytes, here a list of natural
  numbers; a byte is a number below 256.  Every function below maps byte
  sequences to byte sequences.
* A Go `error` result is an `Option Error` (`none` is `nil`).
* The network, the clock and the scheduling of `sync.Pool` are inputs: a value
  of type `World` gives what they answer during one call.
* HMAC-SHA256 and the Unicode case tables are library data that are passed in
  as a value of type `Lib`.
-/

namespace Backends

/-- A Go string: its bytes, in order. -/
abbrev GoString := List Nat

/-! ## unicode/utf8 -/

/-- The rune `utf8.RuneError`, U+FFFD. -/
def RuneError : Nat := 0xFFFD

/-- The result of `utf8.DecodeRune` on the bytes `p`: the rune and its width.
`(RuneError, 0)` on empty input, `(RuneError, 1)` on a byte that starts no
well-formed encoding.  The masks and shifts of the Go code are written with
`%` and `*`: `p0 & 0x1F` is `p0 % 32`, `x << 6 | y` is `x * 64 + y`. -/
def DecodeRune : GoString → Nat × Nat
  | [] => (RuneError, 0)
  | p0 :: rest =>
    if p0 < 0x80 then (p0, 1)
    else if p0 < 0xC2 then (RuneError, 1)
    else if p0 < 0xE0 then
      match rest with
      | b1 :: _ =>
        if b1 < 0x80 ∨ 0xBF < b1 then (RuneError, 1)
        else (p0 % 32 * 64 + b1 % 64, 2)
      | _ => (RuneError, 1)
    else if p0 < 0xF0 then
      match rest with
      | b1 :: b2 :: _ =>
        if b1 < (if p0 = 0xE0 then 0xA0 else 0x80) ∨ (if p0 = 0xED then 0x9F else 0xBF) < b1 then
          (RuneError, 1)
        else if b2 < 0x80 ∨ 0xBF < b2 then (RuneError, 1)
        else (p0 % 16 * 4096 + b1 % 64 * 64 + b2 % 64, 3)
      | _ => (RuneError, 1)
    else if p0 < 0xF5 then
      match rest with
      | b1 :: b2 :: b3 :: _ =>
        if b1 < (if p0 = 0xF0 then 0x90 else 0x80) ∨ (if p0 = 0xF4 then 0x8F else 0xBF) < b1 then
          (RuneError, 1)
        else if b2 < 0x80 ∨ 0xBF < b2 then (RuneError, 1)
        else if b3 < 0x80 ∨ 0xBF < b3 then (RuneError, 1)
        else (p0 % 8 * 262144 + b1 % 64 * 4096 + b2 % 64 * 64 + b3 % 64, 4)
      | _ => (RuneError, 1)
    else (RuneError, 1)

/-- The bytes `utf8.EncodeRune` writes for the rune `r`; a surrogate or a value
above U+10FFFF is written as `RuneError`. -/
def EncodeRune (r : Nat) : GoString :=
  if r ≤ 0x7F then [r]
  else if r ≤ 0x7FF then [0xC0 + r / 64, 0x80 + r % 64]
  else if 0x10FFFF < r ∨ (0xD800 ≤ r ∧ r ≤ 0xDFFF) then [0xEF, 0xBF, 0xBD]
  else if r ≤ 0xFFFF then [0xE0 + r / 4096, 0x80 + r / 64 % 64, 0x80 + r % 64]
  else [0xF0 + r / 262144, 0x80 + r / 4096 % 64, 0x80 + r / 64 % 64, 0x80 + r % 64]

/-- A string literal of the Go source as a Go string (its UTF-8 bytes). -/
def lit (s : String) : GoString :=
  s.toList.flatMap (fun ch => EncodeRune ch.toNat)

/-- The loop of `utf8.ValidString`, `n` bounding the number of runes read. -/
def validLoop : Nat → GoString → Bool
  | _, [] => true
  | 0, _ :: _ => false
  | n + 1, b :: rest =>
    let d := DecodeRune (b :: rest)
    if d.1 = RuneError ∧ d.2 = 1 then false
    else validLoop n (rest.drop (d.2 - 1))

/-- The function `utf8.ValidString`. -/
def ValidString (s : GoString) : Bool :=
  validLoop s.length s

/-- The loop that coerces a string to valid UTF-8 as `encoding/json` does on
the way out and in: a byte that starts no well-formed encoding becomes the
three bytes of U+FFFD, every well-formed encoding stays. -/
def coerceLoop : Nat → GoString → GoString
  | _, [] => []
  | 0, _ :: _ => []
  | n + 1, b :: rest =>
    let d := DecodeRune (b :: rest)
    if d.1 = RuneError ∧ d.2 = 1 then EncodeRune RuneError ++ coerceLoop n rest
    else (b :: rest).take d.2 ++ coerceLoop n (rest.drop (d.2 - 1))

/-- The string `s` coerced to valid UTF-8. -/
def toValidUTF8 (s : GoString) : GoString :=
  coerceLoop s.length s

/-! ## The partition key and its header form -/

/-- The value `[8]byte` that `partitionKeyPool.New` builds. -/
def poolNew : List Nat :=
  (((List.replicate 8 0).set 0 0x5B).set 1 0x22 |>.set 6 0x22).set 7 0x5D

/-- The contents of a `sync.Pool`: the values put and not yet taken or
dropped. -/
abbrev Pool := List (List Nat)

/-- The call `Pool.Get()`.  Which stored value comes out, if any, is not
determined by the program: `pick = some i` takes the value at position `i`,
and when there is none there, or when `pick = none`, the pool calls `New`. -/
def Pool.Get (p : Pool) (pick : Option Nat) : List Nat × Pool :=
  match pick with
  | none => (poolNew, p)
  | some i =>
    match p[i]? with
    | some b => (b, p.eraseIdx i)
    | none => (poolNew, p)

/-- The call `Pool.Put(x)`. -/
def Pool.Put (p : Pool) (x : List Nat) : Pool :=
  x :: p

/-- What the garbage collector may do to a pool between two calls: drop the
values whose flag in `keep` is `false` (a missing flag keeps the value). -/
def Pool.collect : Pool → List Bool → Pool
  | [], _ => []
  | x :: xs, [] => x :: xs
  | x :: xs, k :: ks => if k then x :: Pool.collect xs ks else Pool.collect xs ks

/-- The built-in `copy(dst[lo:hi], src)` on an array `dst`: the first
`min (hi - lo) (len src)` bytes of `src` overwrite `dst` from index `lo`. -/
def copyInto (dst : List Nat) (lo hi : Nat) (src : GoString) : List Nat :=
  dst.take lo ++ src.take (hi - lo) ++ dst.drop (lo + min (hi - lo) src.length)

/-- Settings of the `fasthttp.Client` built by `NewAzureBackend`; durations in
seconds. -/
structure ClientConfig where
  MaxIdleConnDuration : Nat
  DialDualStack : Bool
  WriteTimeout : Nat
  ReadTimeout : Nat
deriving DecidableEq, Repr

/-- The struct `AzureTableBackend`. -/
structure AzureTableBackend where
  Client : ClientConfig
  Account : GoString
  Key : GoString
  URI : GoString
  partitionKeyPool : Pool
deriving DecidableEq, Repr

/-- The struct `AzureValue`. -/
structure AzureValue where
  ID : GoString
  Value : GoString
  PartitionKey : GoString
deriving DecidableEq, Repr

/-- The constructor `NewAzureBackend(account, key)`.  It has no error result
and reads neither argument beyond storing it. -/
def NewAzureBackend (account key : GoString) : AzureTableBackend :=
  { Account := account
    Key := key
    Client :=
      { MaxIdleConnDuration := 30
        DialDualStack := true
        WriteTimeout := 15
        ReadTimeout := 15 }
    URI := lit "https://" ++ account ++ lit ".documents.azure.com"
    partitionKeyPool := [] }

/-- The slice expression `s[lo:hi]` on a string; `none` is the run-time panic
of a slice whose bounds are out of range. -/
def slice (s : GoString) (lo hi : Nat) : Option GoString :=
  if lo ≤ hi ∧ hi ≤ s.length then some ((s.take hi).drop lo) else none

/-- The method `makePartitionKey`; `none` is a run-time panic. -/
def AzureTableBackend.makePartitionKey (_c : AzureTableBackend) (objectKey : GoString) :
    Option GoString :=
  let end_ := objectKey.length
  let end_ := if end_ > 4 then 4 else end_
  slice objectKey 0 end_

/-- The method `wrapForHeader`: the header string and the backend afterwards.
The deferred `Put(buffer)` has its argument evaluated at the `defer`
statement, and `buffer` is an array value, so the pool receives a copy of the
array as it came out of `Get`, taken before `copy` writes into `buffer`. -/
def AzureTableBackend.wrapForHeader (c : AzureTableBackend) (pick : Option Nat)
    (partitionKey : GoString) : GoString × AzureTableBackend :=
  let got := c.partitionKeyPool.Get pick
  let buffer := got.1
  let deferred := buffer
  let buffer := copyInto buffer 2 6 partitionKey
  (buffer, { c with partitionKeyPool := Pool.Put got.2 deferred })


/-! ## Library routines used by `signReq` -/

/-- Library data the program is linked with. -/
structure Lib where
  /-- The MAC that `hmac.New(sha256.New, key)` yields once `message` has been
  written to it and `Sum(nil)` is called. -/
  hmacSHA256 : (key message : GoString) → GoString
  /-- The lower-case mapping of `unicode.ToLower` on runes above U+007F. -/
  toLowerTable : Nat → Nat

/-- The function `unicode.ToLower`. -/
def unicodeToLower (L : Lib) (r : Nat) : Nat :=
  if r ≤ 0x7F then
    if 0x41 ≤ r ∧ r ≤ 0x5A then r + 0x20 else r
  else L.toLowerTable r

/-- The loop of `strings.Map(mapping, s)` for a mapping that drops no rune:
every rune of `s`, an ill-formed byte counting as `RuneError`, is replaced by
the encoding of its image. -/
def mapLoop (mapping : Nat → Nat) : Nat → GoString → GoString
  | _, [] => []
  | 0, _ :: _ => []
  | n + 1, b :: rest =>
    let d := DecodeRune (b :: rest)
    EncodeRune (mapping d.1) ++ mapLoop mapping n (rest.drop (d.2 - 1))

/-- The function `strings.ToLower`. -/
def ToLower (L : Lib) (s : GoString) : GoString :=
  mapLoop (unicodeToLower L) s.length s

/-- The alphabet of `base64.StdEncoding`. -/
def encodeStd : GoString :=
  lit "ABCDEFGHIJKLMNOPQRSTUVWXYZabcdefghijklmnopqrstuvwxyz0123456789+/"

/-- The entry `decodeMap[in]` of `base64.StdEncoding`: the position of `in` in the
alphabet, `0xFF` for a byte outside it. -/
def decodeMap (c : Nat) : Nat :=
  if encodeStd.indexOf c < 64 then encodeStd.indexOf c else 0xFF

/-- The symbol of `base64.StdEncoding` for the six-bit value `v`. -/
def encodeSym (v : Nat) : Nat :=
  encodeStd.getD (v % 64) 0

/-- The function `base64.StdEncoding.EncodeToString`. -/
def EncodeToString : GoString → GoString
  | [] => []
  | [a] => [encodeSym (a / 4), encodeSym (a % 4 * 16), 0x3D, 0x3D]
  | [a, b] => [encodeSym (a / 4), encodeSym (a % 4 * 16 + b / 16), encodeSym (b % 16 * 4), 0x3D]
  | a :: b :: c :: rest =>
    [encodeSym (a / 4), encodeSym (a % 4 * 16 + b / 16), encodeSym (b % 16 * 4 + c / 64),
      encodeSym (c % 64)] ++ EncodeToString rest

/-- The Go error values the backend can return. -/
inductive Error where
  /-- The value of `fmt.Errorf(msg)`. -/
  | errorf (msg : GoString)
  /-- An error returned by `Client.Do` or `Client.DoDeadline`. -/
  | client (code : Nat)
  /-- A `*json.SyntaxError`. -/
  | jsonSyntax
  /-- A `*json.UnmarshalTypeError`. -/
  | jsonType
  /-- A `base64.CorruptInputError`. -/
  | corruptInput
deriving DecidableEq, Repr

/-- The quanta of `base64.StdEncoding.DecodeString` on input without line
breaks: the bytes decoded and the error.  The bytes of the quanta read before
an error are returned with it. -/
def decodeQuanta : GoString → GoString × Option Error
  | [] => ([], none)
  | [_] => ([], some Error.corruptInput)
  | [_, _] => ([], some Error.corruptInput)
  | [_, _, _] => ([], some Error.corruptInput)
  | c0 :: c1 :: c2 :: c3 :: rest =>
    let d0 := decodeMap c0
    let d1 := decodeMap c1
    let d2 := decodeMap c2
    let d3 := decodeMap c3
    if d0 = 0xFF ∨ d1 = 0xFF then ([], some Error.corruptInput)
    else if c2 = 0x3D then
      if c3 = 0x3D then
        ([(d0 * 4 + d1 / 16) % 256], if rest = [] then none else some Error.corruptInput)
      else ([], some Error.corruptInput)
    else if d2 = 0xFF then ([], some Error.corruptInput)
    else if c3 = 0x3D then
      ([(d0 * 4 + d1 / 16) % 256, (d1 * 16 + d2 / 4) % 256],
        if rest = [] then none else some Error.corruptInput)
    else if d3 = 0xFF then ([], some Error.corruptInput)
    else
      let r := decodeQuanta rest
      ([(d0 * 4 + d1 / 16) % 256, (d1 * 16 + d2 / 4) % 256, (d2 * 64 + d3) % 256] ++ r.1, r.2)

/-- The function `base64.StdEncoding.DecodeString`: carriage returns and line
feeds are skipped, the rest is read in quanta of four symbols. -/
def DecodeString (s : GoString) : GoString × Option Error :=
  decodeQuanta (s.filter (fun c => c ≠ 0x0D ∧ c ≠ 0x0A))

/-- The digits `"0123456789ABCDEF"` of `net/url`. -/
def upperhex (n : Nat) : Nat :=
  (lit "0123456789ABCDEF").getD (n % 16) 0

/-- The test `shouldEscape(c, encodeQueryComponent)` of `net/url`. -/
def shouldEscape (c : Nat) : Bool :=
  if (0x61 ≤ c ∧ c ≤ 0x7A) ∨ (0x41 ≤ c ∧ c ≤ 0x5A) ∨ (0x30 ≤ c ∧ c ≤ 0x39) then false
  else if c = 0x2D ∨ c = 0x5F ∨ c = 0x2E ∨ c = 0x7E then false
  else true

/-- The function `url.QueryEscape`. -/
def QueryEscape (s : GoString) : GoString :=
  s.flatMap (fun c =>
    if c = 0x20 then [0x2B]
    else if shouldEscape c then [0x25, upperhex (c / 16), upperhex (c % 16)]
    else [c])

/-- The string `strToSign` that `signReq` builds with `fmt.Sprintf`. -/
def strToSign (L : Lib) (verb resourceType resourceLink date : GoString) : GoString :=
  ToLower L verb ++ [0x0A] ++ resourceType ++ [0x0A] ++ resourceLink ++ [0x0A]
    ++ ToLower L date ++ [0x0A, 0x0A]

/-- The method `signReq`.  The error of `DecodeString` is discarded. -/
def AzureTableBackend.signReq (L : Lib) (c : AzureTableBackend)
    (verb resourceType resourceLink date : GoString) : GoString :=
  let decodedKey := (DecodeString c.Key).1
  let mac := L.hmacSHA256 decodedKey (strToSign L verb resourceType resourceLink date)
  let signature := EncodeToString mac
  QueryEscape (lit "type=master&ver=1.0&sig=" ++ signature)

/-! ## encoding/json -/

/-- The digits `"0123456789abcdef"` of `encoding/json`. -/
def hex (n : Nat) : Nat :=
  (lit "0123456789abcdef").getD (n % 16) 0

/-- The table `htmlSafeSet` of `encoding/json` on bytes below `0x80`: the bytes
written as they are inside a JSON string when HTML escaping is on. -/
def htmlSafeSet (b : Nat) : Bool :=
  0x20 ≤ b ∧ b ≠ 0x22 ∧ b ≠ 0x26 ∧ b ≠ 0x3C ∧ b ≠ 0x3E ∧ b ≠ 0x5C

/-- The loop of `encodeState.string(s, escapeHTML = true)` between the two
quotes, `n` bounding the number of iterations. -/
def encodeLoop : Nat → GoString → GoString
  | _, [] => []
  | 0, _ :: _ => []
  | n + 1, b :: rest =>
    if b < 0x80 then
      if htmlSafeSet b then b :: encodeLoop n rest
      else if b = 0x5C ∨ b = 0x22 then [0x5C, b] ++ encodeLoop n rest
      else if b = 0x0A then [0x5C, 0x6E] ++ encodeLoop n rest
      else if b = 0x0D then [0x5C, 0x72] ++ encodeLoop n rest
      else if b = 0x09 then [0x5C, 0x74] ++ encodeLoop n rest
      else [0x5C, 0x75, 0x30, 0x30, hex (b / 16), hex (b % 16)] ++ encodeLoop n rest
    else
      let d := DecodeRune (b :: rest)
      if d.1 = RuneError ∧ d.2 = 1 then
        [0x5C, 0x75, 0x66, 0x66, 0x66, 0x64] ++ encodeLoop n rest
      else if d.1 = 0x2028 ∨ d.1 = 0x2029 then
        [0x5C, 0x75, 0x32, 0x30, 0x32, hex (d.1 % 16)] ++ encodeLoop n (rest.drop (d.2 - 1))
      else (b :: rest).take d.2 ++ encodeLoop n (rest.drop (d.2 - 1))

/-- The JSON string literal that `json.Marshal` writes for the Go string `s`. -/
def encodeString (s : GoString) : GoString :=
  [0x22] ++ encodeLoop s.length s ++ [0x22]

/-- The function `json.Marshal` on a pointer to an `AzureValue`, whose fields
are tagged `id`, `value` and `partition`.  It cannot fail on this type. -/
def Marshal (av : AzureValue) : GoString × Option Error :=
  (lit "\x7b\"id\":" ++ encodeString av.ID ++ lit ",\"value\":" ++ encodeString av.Value
    ++ lit ",\"partition\":" ++ encodeString av.PartitionKey ++ lit "\x7d", none)

/-- A JSON text once read. -/
inductive JSON where
  | null
  | bool (b : Bool)
  | number (text : GoString)
  | string (s : GoString)
  | array (items : List JSON)
  | object (members : List (GoString × JSON))

/-- Skips the white space of JSON: space, tab, carriage return, line feed. -/
def skipSpace : GoString → GoString
  | [] => []
  | c :: rest => if c = 0x20 ∨ c = 0x09 ∨ c = 0x0D ∨ c = 0x0A then skipSpace rest else c :: rest

/-- The value of a hexadecimal digit. -/
def unhex (c : Nat) : Option Nat :=
  if 0x30 ≤ c ∧ c ≤ 0x39 then some (c - 0x30)
  else if 0x61 ≤ c ∧ c ≤ 0x66 then some (c - 0x61 + 10)
  else if 0x41 ≤ c ∧ c ≤ 0x46 then some (c - 0x41 + 10)
  else none

/-- The function `getu4` of `encoding/json`: the rune of a leading `\uXXXX`. -/
def getu4 : GoString → Option Nat
  | 0x5C :: 0x75 :: a :: b :: c :: d :: _ =>
    match unhex a, unhex b, unhex c, unhex d with
    | some a, some b, some c, some d => some (a * 4096 + b * 256 + c * 16 + d)
    | _, _, _, _ => none
  | _ => none

/-- The function `utf16.DecodeRune`. -/
def utf16DecodeRune (r1 r2 : Nat) : Nat :=
  if 0xD800 ≤ r1 ∧ r1 < 0xDC00 ∧ 0xDC00 ≤ r2 ∧ r2 < 0xE000 then
    (r1 - 0xD800) * 1024 + (r2 - 0xDC00) + 0x10000
  else RuneError

/-- Puts `pre` in front of the string of a read result. -/
def consRead (pre : GoString) : Option (GoString × GoString) → Option (GoString × GoString)
  | some (s, rest) => some (pre ++ s, rest)
  | none => none

/-- Reads a JSON string literal whose opening quote has been consumed: the Go
string it denotes (as `unquote` of `encoding/json` builds it) and the input
after the closing quote; `none` where the scanner of `encoding/json` reports a
syntax error.  `n` bounds the number of iterations. -/
def readString : Nat → GoString → Option (GoString × GoString)
  | 0, _ => none
  | _, [] => none
  | n + 1, c :: rest =>
    if c = 0x22 then some ([], rest)
    else if c = 0x5C then
      match rest with
      | [] => none
      | e :: rest1 =>
        if e = 0x75 then
          match getu4 (c :: rest) with
          | none => none
          | some rr =>
            if 0xD800 ≤ rr ∧ rr < 0xE000 then
              match getu4 (rest1.drop 4) with
              | some rr1 =>
                if utf16DecodeRune rr rr1 ≠ RuneError then
                  consRead (EncodeRune (utf16DecodeRune rr rr1)) (readString n (rest1.drop 10))
                else consRead (EncodeRune RuneError) (readString n (rest1.drop 4))
              | none => consRead (EncodeRune RuneError) (readString n (rest1.drop 4))
            else consRead (EncodeRune rr) (readString n (rest1.drop 4))
        else if e = 0x22 ∨ e = 0x5C ∨ e = 0x2F then consRead [e] (readString n rest1)
        else if e = 0x62 then consRead [0x08] (readString n rest1)
        else if e = 0x66 then consRead [0x0C] (readString n rest1)
        else if e = 0x6E then consRead [0x0A] (readString n rest1)
        else if e = 0x72 then consRead [0x0D] (readString n rest1)
        else if e = 0x74 then consRead [0x09] (readString n rest1)
        else none
    else if c < 0x20 then none
    else if c < 0x80 then consRead [c] (readString n rest)
    else
      let d := DecodeRune (c :: rest)
      consRead (EncodeRune d.1) (readString n (rest.drop (d.2 - 1)))

/-- Splits off the leading decimal digits. -/
def spanDigits : GoString → GoString × GoString
  | [] => ([], [])
  | c :: rest =>
    if 0x30 ≤ c ∧ c ≤ 0x39 then ((c :: (spanDigits rest).1), (spanDigits rest).2)
    else ([], c :: rest)

/-- Reads a JSON number: its text and the input after it. -/
def readNumber (s : GoString) : Option (GoString × GoString) :=
  let sign : GoString × GoString :=
    match s with
    | 0x2D :: r => ([0x2D], r)
    | _ => ([], s)
  let int : Option (GoString × GoString) :=
    match sign.2 with
    | 0x30 :: r => some ([0x30], r)
    | _ => if (spanDigits sign.2).1 = [] then none else some (spanDigits sign.2)
  match int with
  | none => none
  | some (i, r) =>
    let frac : Option (GoString × GoString) :=
      match r with
      | 0x2E :: r1 =>
        if (spanDigits r1).1 = [] then none else some (0x2E :: (spanDigits r1).1, (spanDigits r1).2)
      | _ => some ([], r)
    match frac with
    | none => none
    | some (f, r) =>
      let exp : Option (GoString × GoString) :=
        match r with
        | e :: r1 =>
          if e = 0x65 ∨ e = 0x45 then
            let sg : GoString × GoString :=
              match r1 with
              | g :: r2 => if g = 0x2B ∨ g = 0x2D then ([g], r2) else ([], r1)
              | [] => ([], [])
            if (spanDigits sg.2).1 = [] then none
            else some (e :: sg.1 ++ (spanDigits sg.2).1, (spanDigits sg.2).2)
          else some ([], r)
        | [] => some ([], r)
      match exp with
      | none => none
      | some (x, r) => some (sign.1 ++ i ++ f ++ x, r)

/-- The input after the prefix `p`, when the input starts with `p`. -/
def stripPrefix : GoString → GoString → Option GoString
  | [], s => some s
  | _ :: _, [] => none
  | p :: ps, c :: cs => if p = c then stripPrefix ps cs else none

mutual
/-- Reads one JSON value at the head of the input (no leading white space):
the value and the input after it, `none` on a syntax error.  `n` bounds the
depth of the calls. -/
def readValue : Nat → GoString → Option (JSON × GoString)
  | 0, _ => none
  | _ + 1, [] => none
  | n + 1, c :: rest =>
    if c = 0x7B then
      if (skipSpace rest).head? = some 0x7D then some (JSON.object [], (skipSpace rest).tail)
      else
        match readMembers n (skipSpace rest) with
        | some (ms, r1) => some (JSON.object ms, r1)
        | none => none
    else if c = 0x5B then
      if (skipSpace rest).head? = some 0x5D then some (JSON.array [], (skipSpace rest).tail)
      else
        match readItems n (skipSpace rest) with
        | some (vs, r1) => some (JSON.array vs, r1)
        | none => none
    else if c = 0x22 then
      match readString rest.length rest with
      | some (str, r) => some (JSON.string str, r)
      | none => none
    else if c = 0x74 then
      match stripPrefix (lit "rue") rest with
      | some r => some (JSON.bool true, r)
      | none => none
    else if c = 0x66 then
      match stripPrefix (lit "alse") rest with
      | some r => some (JSON.bool false, r)
      | none => none
    else if c = 0x6E then
      match stripPrefix (lit "ull") rest with
      | some r => some (JSON.null, r)
      | none => none
    else
      match readNumber (c :: rest) with
      | some (t, r) => some (JSON.number t, r)
      | none => none
/-- Reads the elements of a non-empty array up to and including `]`. -/
def readItems : Nat → GoString → Option (List JSON × GoString)
  | 0, _ => none
  | n + 1, s =>
    match readValue n s with
    | none => none
    | some (v, r) =>
      match skipSpace r with
      | [] => none
      | d :: r1 =>
        if d = 0x2C then
          match readItems n (skipSpace r1) with
          | some (vs, r2) => some (v :: vs, r2)
          | none => none
        else if d = 0x5D then some ([v], r1)
        else none
/-- Reads the members of a non-empty object up to and including the closing
brace. -/
def readMembers : Nat → GoString → Option (List (GoString × JSON) × GoString)
  | 0, _ => none
  | _ + 1, [] => none
  | n + 1, q :: r =>
    if q = 0x22 then
      match readString r.length r with
      | none => none
      | some (k, r1) =>
        match skipSpace r1 with
        | [] => none
        | d :: r2 =>
          if d = 0x3A then
            match readValue n (skipSpace r2) with
            | none => none
            | some (v, r3) =>
              match skipSpace r3 with
              | [] => none
              | e :: r4 =>
                if e = 0x2C then
                  match readMembers n (skipSpace r4) with
                  | some (ms, r5) => some ((k, v) :: ms, r5)
                  | none => none
                else if e = 0x7D then some ([(k, v)], r4)
                else none
          else none
    else none
end

/-- Reads a whole JSON text: one value with white space around it.  `none` is
the case in which `checkValid` of `encoding/json` reports a syntax error.  A
call to a reader consumes a byte at least every second level of depth, so the
bound `2 * len + 2` is never reached. -/
def readJSON (data : GoString) : Option JSON :=
  match readValue (2 * data.length + 2) (skipSpace data) with
  | some (v, rest) => if skipSpace rest = [] then some v else none
  | none => none

/-- The byte `b & caseMask` of `encoding/json`, the mask clearing bit 5. -/
def caseMask (b : Nat) : Nat :=
  b - b / 32 % 2 * 32

/-- The fold test of `encoding/json` for a field name made of letters other
than `k` and `s` (`simpleLetterEqualFold`): equality up to the case of ASCII
letters. -/
def equalFold (name key : GoString) : Bool :=
  name.map caseMask = key.map caseMask

/-- Stores one object member into the `AzureValue` being decoded, as `object`
and `literalStore` of `encoding/json` do for a struct of string fields: a
member whose key matches no field is skipped, a string is stored, `null`
leaves the field, any other value records an `UnmarshalTypeError` (the first
one is kept) and decoding goes on. -/
def storeMember (st : AzureValue × Option Error) (m : GoString × JSON) :
    AzureValue × Option Error :=
  let typeError : AzureValue × Option Error :=
    (st.1, match st.2 with
      | some e => some e
      | none => some Error.jsonType)
  if equalFold (lit "id") m.1 then
    match m.2 with
    | JSON.string s => ({ st.1 with ID := s }, st.2)
    | JSON.null => st
    | _ => typeError
  else if equalFold (lit "value") m.1 then
    match m.2 with
    | JSON.string s => ({ st.1 with Value := s }, st.2)
    | JSON.null => st
    | _ => typeError
  else if equalFold (lit "partition") m.1 then
    match m.2 with
    | JSON.string s => ({ st.1 with PartitionKey := s }, st.2)
    | JSON.null => st
    | _ => typeError
  else st

/-- The function `json.Unmarshal(data, &av)`: the struct afterwards and the
error. -/
def Unmarshal (data : GoString) (av : AzureValue) : AzureValue × Option Error :=
  match readJSON data with
  | none => (av, some Error.jsonSyntax)
  | some (JSON.object ms) => ms.foldl storeMember (av, none)
  | some JSON.null => (av, none)
  | some _ => (av, some Error.jsonType)

/-! ## The HTTP client -/

/-- The parts of a `fasthttp.Request` the backend sets. -/
structure Request where
  Method : GoString
  RequestURI : GoString
  Body : GoString
  /-- The header lines added with `Header.Add`, in order. -/
  Header : List (GoString × GoString)
deriving DecidableEq, Repr

/-- The parts of a `fasthttp.Response` a server determines. -/
structure Response where
  StatusCode : Nat
  Body : GoString
deriving DecidableEq, Repr

/-- The call `req.Header.Add(key, value)`. -/
def Request.Add (req : Request) (key value : GoString) : Request :=
  { req with Header := req.Header ++ [(key, value)] }

/-- The value of the first header line named `key`. -/
def Request.Peek (req : Request) (key : GoString) : Option GoString :=
  (req.Header.find? (fun h => h.1 = key)).map (fun h => h.2)

/-- The part of a `context.Context` the backend reads: `ctx.Deadline()`. -/
structure Context where
  Deadline : Option Nat

/-- What the surroundings of the program answer during one call of `Get` or
`Put`. -/
structure World where
  /-- The string `time.Now().UTC().Format("Mon, 02 Jan 2006 15:04:05 GMT")`. -/
  formattedRequestTime : GoString
  /-- The choice `sync.Pool` makes in `Get()`. -/
  pick : Option Nat
  /-- The outcome of `Client.Do(req, resp)`: the error, or the response
  written to `resp`. -/
  Do : Request → Except Error Response
  /-- The outcome of `Client.DoDeadline(req, resp, deadline)`. -/
  DoDeadline : Request → Nat → Except Error Response

/-- The method `Send`: the request as handed to the client and the outcome. -/
def AzureTableBackend.Send (L : Lib) (c : AzureTableBackend) (w : World) (ctx : Context)
    (req : Request) (resourceType resourceId : GoString) : Request × Except Error Response :=
  let date := w.formattedRequestTime
  let req := req.Add (lit "x-ms-date") date
  let req := req.Add (lit "x-ms-version") (lit "2017-01-19")
  let req := req.Add (lit "Authorization") (c.signReq L req.Method resourceType resourceId date)
  match ctx.Deadline with
  | some deadline => (req, w.DoDeadline req deadline)
  | none => (req, w.Do req)

/-- The results of `Get` with its effects: the requests handed to the HTTP
client and the backend afterwards. -/
structure GetResult where
  value : GoString
  err : Option Error
  sent : List Request
  backend : AzureTableBackend

/-- The results of `Put` with its effects. -/
structure PutResult where
  err : Option Error
  sent : List Request
  backend : AzureTableBackend

/-- The method `Get`; `none` is a run-time panic. -/
def AzureTableBackend.Get (L : Lib) (c : AzureTableBackend) (w : World) (ctx : Context)
    (key : GoString) : Option GetResult :=
  if key = [] then
    some { value := [], err := some (Error.errorf (lit "Invalid Key")), sent := [], backend := c }
  else
    let resourceLink := lit "/dbs/prebidcache/colls/cache/docs/" ++ key
    let req : Request :=
      { Method := lit "GET", RequestURI := c.URI ++ resourceLink, Body := [], Header := [] }
    match c.makePartitionKey key with
    | none => none
    | some partitionKey =>
      let wrapped := c.wrapForHeader w.pick partitionKey
      let req := req.Add (lit "x-ms-documentdb-partitionkey") wrapped.1
      let c := wrapped.2
      match slice resourceLink 1 resourceLink.length with
      | none => none
      | some resourceId =>
        let io := c.Send L w ctx req (lit "docs") resourceId
        match io.2 with
        | Except.error err => some { value := [], err := some err, sent := [io.1], backend := c }
        | Except.ok resp =>
          let av := Unmarshal resp.Body { ID := [], Value := [], PartitionKey := [] }
          match av.2 with
          | some err => some { value := [], err := some err, sent := [io.1], backend := c }
          | none =>
            if av.1.Value = [] then
              some { value := [], err := some (Error.errorf (lit "Key not found")),
                     sent := [io.1], backend := c }
            else some { value := av.1.Value, err := none, sent := [io.1], backend := c }

/-- The method `Put`; `none` is a run-time panic.  The response is not read.
The test of `err` between `Header.Add` and `Send` reads the error of
`json.Marshal` a second time, which is nil there, and is left out. -/
def AzureTableBackend.Put (L : Lib) (c : AzureTableBackend) (w : World) (ctx : Context)
    (key value : GoString) (_ttlSeconds : Int) : Option PutResult :=
  if key = [] then
    some { err := some (Error.errorf (lit "Invalid Key")), sent := [], backend := c }
  else if value = [] then
    some { err := some (Error.errorf (lit "Invalid Value")), sent := [], backend := c }
  else
    match c.makePartitionKey key with
    | none => none
    | some partitionKey =>
      let av : AzureValue := { ID := key, Value := value, PartitionKey := partitionKey }
      let b := Marshal av
      match b.2 with
      | some err => some { err := some err, sent := [], backend := c }
      | none =>
        let resourceLink := lit "/dbs/prebidcache/colls/cache/docs"
        let req : Request :=
          { Method := lit "POST", RequestURI := c.URI ++ resourceLink, Body := b.1, Header := [] }
        let wrapped := c.wrapForHeader w.pick partitionKey
        let req := req.Add (lit "x-ms-documentdb-partitionkey") wrapped.1
        let c := wrapped.2
        let io := c.Send L w ctx req (lit "docs") (lit "dbs/prebidcache/colls/cache")
        match io.2 with
        | Except.error err => some { err := some err, sent := [io.1], backend := c }
        | Except.ok _ => some { err := none, sent := [io.1], backend := c }

/-! ## Definitions used to state the theorems -/

/-- Every buffer held in the pool of `c` is as `New` builds it. -/
def Pristine (c : AzureTableBackend) : Prop :=
  ∀ b ∈ c.partitionKeyPool, b = poolNew

/-- One thing that happens to the pool of a backend. -/
inductive PoolEvent where
  /-- A call `wrapForHeader(partitionKey)` in which the pool chose `pick`. -/
  | wrap (pick : Option Nat) (partitionKey : GoString)
  /-- A garbage collection that keeps the buffers flagged in `keep`. -/
  | collect (keep : List Bool)

/-- The backend after one event. -/
def PoolEvent.apply (c : AzureTableBackend) : PoolEvent → AzureTableBackend
  | PoolEvent.wrap pick partitionKey => (c.wrapForHeader pick partitionKey).2
  | PoolEvent.collect keep => { c with partitionKeyPool := Pool.collect c.partitionKeyPool keep }

/-- The backend after a sequence of events. -/
def runEvents (c : AzureTableBackend) (evs : List PoolEvent) : AzureTableBackend :=
  evs.foldl PoolEvent.apply c

/-- A world in which the client answers every request with `resp`. -/
def answering (date : GoString) (resp : Response) : World :=
  { formattedRequestTime := date
    pick := none
    Do := fun _ => Except.ok resp
    DoDeadline := fun _ _ => Except.ok resp }

/-- A world in which the client fails on every request with `err`. -/
def failing (date : GoString) (err : Error) : World :=
  { formattedRequestTime := date
    pick := none
    Do := fun _ => Except.error err
    DoDeadline := fun _ _ => Except.error err }

/-- The value the signing protocol prescribes for the `Authorization` header of
a request on a document resource, written after the specification: the query
escape of `type=master&ver=1.0&sig=` followed by the base64 of the HMAC-SHA256,
keyed with the decoded secret, of lower-case verb, `docs`, link and lower-case
date, each followed by a line feed, and one more line feed. -/
def authorization (L : Lib) (secret verb link date : GoString) : GoString :=
  QueryEscape (lit "type=master&ver=1.0&sig="
    ++ EncodeToString (L.hmacSHA256 (DecodeString secret).1
        (ToLower L verb ++ lit "\n" ++ lit "docs" ++ lit "\n" ++ link ++ lit "\n"
          ++ ToLower L date ++ lit "\n\n")))

/-- The string `s` when `text` is a JSON array literal with exactly one
element and that element is the string `s`; `none` for any other text. -/
def singleString (text : GoString) : Option GoString :=
  match readJSON text with
  | some (JSON.array [JSON.string s]) => some s
  | _ => none

/-- A string that stands for itself between the quotes of a JSON string
literal: valid UTF-8 without a control byte, a quote or a backslash. -/
def Plain (s : GoString) : Prop :=
  ValidString s = true ∧ ∀ b ∈ s, 0x20 ≤ b ∧ b ≠ 0x22 ∧ b ≠ 0x5C

/-! # Theorems -/

/-! ## The partition key -/

theorem slice_zero (s : GoString) (hi : Nat) (h : hi ≤ s.length) :
    slice s 0 hi = some (s.take hi) := by
  simp [slice, h]

theorem makePartitionKey_eq (c : AzureTableBackend) (key : GoString) :
    c.makePartitionKey key = some (key.take 4) := by
  unfold AzureTableBackend.makePartitionKey
  by_cases h : key.length > 4
  · simp only [h, if_true]
    rw [slice_zero key 4 (by omega)]
  · simp only [h, if_false]
    rw [slice_zero key key.length (Nat.le_refl _)]
    rw [List.take_of_length_le (Nat.le_refl _), List.take_of_length_le (by omega)]

/-- C5: `makePartitionKey` never panics and returns the first four bytes of the
key, the whole key when it is shorter; the result is a prefix of the key of
length `min 4 (len key)`, and keys with the same first four bytes get the same
partition key.  The key `"abcdef123"` gives `"abcd"`. -/
theorem makePartitionKey_first_four (c : AzureTableBackend) (key : GoString) :
    ∃ pk, c.makePartitionKey key = some pk
      ∧ pk = key.take 4
      ∧ (key.length < 4 → pk = key)
      ∧ pk <+: key
      ∧ pk.length = min 4 key.length
      ∧ (∀ key2 : GoString, key2.take 4 = key.take 4 → c.makePartitionKey key2 = some pk)
      ∧ c.makePartitionKey (lit "abcdef123") = some (lit "abcd") := by
  refine ⟨key.take 4, makePartitionKey_eq c key, rfl, ?_, List.take_prefix 4 key, ?_, ?_, ?_⟩
  · intro h
    exact List.take_of_length_le (by omega)
  · simp [List.length_take]
  · intro key2 h
    rw [makePartitionKey_eq, h]
  · rw [makePartitionKey_eq]
    decide

/-! ## The buffer pool -/

theorem Pool.Get_pristine (p : Pool) (pick : Option Nat) (h : ∀ b ∈ p, b = poolNew) :
    (Pool.Get p pick).1 = poolNew ∧ ∀ b ∈ (Pool.Get p pick).2, b = poolNew := by
  cases pick with
  | none => exact ⟨rfl, h⟩
  | some i =>
    cases hg : p[i]? with
    | none =>
      have e : Pool.Get p (some i) = (poolNew, p) := by simp [Pool.Get, hg]
      rw [e]
      exact ⟨rfl, h⟩
    | some b =>
      have e : Pool.Get p (some i) = (b, p.eraseIdx i) := by simp [Pool.Get, hg]
      rw [e]
      refine ⟨h b (List.getElem?_mem hg), ?_⟩
      intro x hx
      exact h x (List.mem_of_mem_eraseIdx hx)

theorem Pool.collect_mem (p : Pool) (keep : List Bool) (b : List Nat)
    (h : b ∈ Pool.collect p keep) : b ∈ p := by
  induction p generalizing keep with
  | nil => simp [Pool.collect] at h
  | cons x xs ih =>
    cases keep with
    | nil => simpa [Pool.collect] using h
    | cons k ks =>
      cases k with
      | true =>
        simp only [Pool.collect, if_true, List.mem_cons] at h
        rcases h with h | h
        · exact h ▸ List.mem_cons_self _ _
        · exact List.mem_cons_of_mem _ (ih ks h)
      | false =>
        simp only [Pool.collect] at h
        exact List.mem_cons_of_mem _ (ih ks (by simpa using h))

theorem wrapForHeader_pristine (c : AzureTableBackend) (pick : Option Nat) (pk : GoString)
    (h : Pristine c) : Pristine (c.wrapForHeader pick pk).2 := by
  have hg := Pool.Get_pristine c.partitionKeyPool pick h
  intro b hb
  simp only [AzureTableBackend.wrapForHeader, Pool.Put, List.mem_cons] at hb
  rcases hb with hb | hb
  · rw [hb]; exact hg.1
  · exact hg.2 b hb

theorem PoolEvent.apply_pristine (c : AzureTableBackend) (ev : PoolEvent) (h : Pristine c) :
    Pristine (PoolEvent.apply c ev) := by
  cases ev with
  | wrap pick pk => exact wrapForHeader_pristine c pick pk h
  | collect keep =>
    intro b hb
    exact h b (Pool.collect_mem _ _ _ hb)

theorem runEvents_pristine (c : AzureTableBackend) (evs : List PoolEvent) (h : Pristine c) :
    Pristine (runEvents c evs) := by
  induction evs generalizing c with
  | nil => exact h
  | cons ev evs ih => exact ih _ (PoolEvent.apply_pristine c ev h)

theorem copyInto_poolNew (pk : GoString) :
    copyInto poolNew 2 6 pk
      = [0x5B, 0x22] ++ pk.take 4 ++ List.replicate (4 - min 4 pk.length) 0 ++ [0x22, 0x5D] := by
  match pk with
  | [] => decide
  | [a] => simp [copyInto, poolNew]
  | [a, b] => simp [copyInto, poolNew]
  | [a, b, c] => simp [copyInto, poolNew]
  | a :: b :: c :: d :: rest =>
    simp [copyInto, poolNew]

theorem wrapForHeader_of_pristine (c : AzureTableBackend) (pick : Option Nat) (pk : GoString)
    (h : Pristine c) :
    (c.wrapForHeader pick pk).1
      = [0x5B, 0x22] ++ pk.take 4 ++ List.replicate (4 - min 4 pk.length) 0 ++ [0x22, 0x5D] := by
  have hg := (Pool.Get_pristine c.partitionKeyPool pick h).1
  simp only [AzureTableBackend.wrapForHeader, hg]
  exact copyInto_poolNew pk

theorem NewAzureBackend_pristine (account key : GoString) : Pristine (NewAzureBackend account key) := by
  intro b hb
  simp [NewAzureBackend] at hb

/-- C10: after any sequence of `wrapForHeader` calls and garbage collections
on a backend built by `NewAzureBackend`, every buffer in the pool is the
8-byte template; a further call hands back to the pool the buffer it took,
keeps the pool pristine, and returns the same 8 bytes as on a fresh backend:
`[`, `"`, the first `min 4 (len pk)` bytes of `pk`, zero bytes up to index 5,
`"`, `]`. -/
theorem wrapForHeader_buffer_reuse (account key : GoString) (evs : List PoolEvent)
    (pick : Option Nat) (pk : GoString) :
    poolNew = [0x5B, 0x22, 0, 0, 0, 0, 0x22, 0x5D]
      ∧ Pristine (runEvents (NewAzureBackend account key) evs)
      ∧ Pristine ((runEvents (NewAzureBackend account key) evs).wrapForHeader pick pk).2
      ∧ ((runEvents (NewAzureBackend account key) evs).wrapForHeader pick pk).2.partitionKeyPool
          = ((runEvents (NewAzureBackend account key) evs).partitionKeyPool.Get pick).1
            :: ((runEvents (NewAzureBackend account key) evs).partitionKeyPool.Get pick).2
      ∧ ((runEvents (NewAzureBackend account key) evs).wrapForHeader pick pk).1
          = ((NewAzureBackend account key).wrapForHeader none pk).1
      ∧ ((runEvents (NewAzureBackend account key) evs).wrapForHeader pick pk).1
          = [0x5B, 0x22] ++ pk.take 4 ++ List.replicate (4 - min 4 pk.length) 0 ++ [0x22, 0x5D]
      ∧ ((runEvents (NewAzureBackend account key) evs).wrapForHeader pick pk).1.length = 8 := by
  have h0 := NewAzureBackend_pristine account key
  have h1 := runEvents_pristine _ evs h0
  refine ⟨by decide, h1, wrapForHeader_pristine _ pick pk h1, rfl, ?_, ?_, ?_⟩
  · rw [wrapForHeader_of_pristine _ pick pk h1, wrapForHeader_of_pristine _ none pk h0]
  · exact wrapForHeader_of_pristine _ pick pk h1
  · rw [wrapForHeader_of_pristine _ pick pk h1]
    simp [List.length_take]
    omega

/-! ## Validation and the not-found case -/

theorem slice_one_link (key : GoString) :
    slice (lit "/dbs/prebidcache/colls/cache/docs/" ++ key) 1
        (lit "/dbs/prebidcache/colls/cache/docs/" ++ key).length
      = some (lit "dbs/prebidcache/colls/cache/docs/" ++ key) := by
  have h : lit "/dbs/prebidcache/colls/cache/docs/" = 0x2F :: lit "dbs/prebidcache/colls/cache/docs/" := by
    decide
  rw [h]
  simp [slice]

/-- C3: `Get` with the empty key, `Put` with the empty key and `Put` with the
empty value return an error without a panic, hand no request to the HTTP
client, leave the backend as it was, and give this same result in every world
(whatever the client, the clock and the pool would have answered) and under
every context. -/
theorem validation_fails_fast (L : Lib) (c : AzureTableBackend) (w : World) (ctx : Context)
    (key value : GoString) (ttl : Int) :
    c.Get L w ctx []
        = some { value := [], err := some (Error.errorf (lit "Invalid Key")), sent := [],
                 backend := c }
      ∧ c.Put L w ctx [] value ttl
        = some { err := some (Error.errorf (lit "Invalid Key")), sent := [], backend := c }
      ∧ (∃ e, c.Put L w ctx key [] ttl = some { err := some e, sent := [], backend := c })
      ∧ (∀ (w2 : World) (ctx2 : Context),
          c.Get L w2 ctx2 [] = c.Get L w ctx []
            ∧ c.Put L w2 ctx2 [] value ttl = c.Put L w ctx [] value ttl
            ∧ c.Put L w2 ctx2 key [] ttl = c.Put L w ctx key [] ttl) := by
  refine ⟨by simp [AzureTableBackend.Get], by simp [AzureTableBackend.Put], ?_, ?_⟩
  · by_cases hk : key = []
    · exact ⟨Error.errorf (lit "Invalid Key"), by simp [AzureTableBackend.Put, hk]⟩
    · exact ⟨Error.errorf (lit "Invalid Value"), by simp [AzureTableBackend.Put, hk]⟩
  · intro w2 ctx2
    refine ⟨by simp [AzureTableBackend.Get], by simp [AzureTableBackend.Put], ?_⟩
    by_cases hk : key = [] <;> simp [AzureTableBackend.Put, hk]

theorem Get_of_ok (L : Lib) (c : AzureTableBackend) (w : World) (ctx : Context)
    (key : GoString) (resp : Response) (hkey : key ≠ [])
    (hDo : ∀ req, w.Do req = Except.ok resp)
    (hDl : ∀ req d, w.DoDeadline req d = Except.ok resp) :
    ∃ r, c.Get L w ctx key = some r
      ∧ (r.value, r.err) =
        (match (Unmarshal resp.Body { ID := [], Value := [], PartitionKey := [] }).2 with
          | some err => ([], some err)
          | none =>
            if (Unmarshal resp.Body { ID := [], Value := [], PartitionKey := [] }).1.Value = []
            then ([], some (Error.errorf (lit "Key not found")))
            else ((Unmarshal resp.Body { ID := [], Value := [], PartitionKey := [] }).1.Value,
              none)) := by
  simp only [AzureTableBackend.Get, hkey, if_false, makePartitionKey_eq, slice_one_link,
    AzureTableBackend.Send]
  cases hd : ctx.Deadline with
  | none =>
    simp only [hDo]
    cases he : (Unmarshal resp.Body { ID := [], Value := [], PartitionKey := [] }).2 with
    | some e => exact ⟨_, rfl, rfl⟩
    | none =>
      by_cases hv : (Unmarshal resp.Body { ID := [], Value := [], PartitionKey := [] }).1.Value = []
      · simp only [hv, if_true]
        exact ⟨_, rfl, rfl⟩
      · simp only [hv, if_false]
        exact ⟨_, rfl, rfl⟩
  | some d =>
    simp only [hDl]
    cases he : (Unmarshal resp.Body { ID := [], Value := [], PartitionKey := [] }).2 with
    | some e => exact ⟨_, rfl, rfl⟩
    | none =>
      by_cases hv : (Unmarshal resp.Body { ID := [], Value := [], PartitionKey := [] }).1.Value = []
      · simp only [hv, if_true]
        exact ⟨_, rfl, rfl⟩
      · simp only [hv, if_false]
        exact ⟨_, rfl, rfl⟩

theorem Get_err_none (L : Lib) (c : AzureTableBackend) (w : World) (ctx : Context)
    (key : GoString) (r : GetResult) (h : c.Get L w ctx key = some r) (he : r.err = none) :
    r.value ≠ [] := by
  unfold AzureTableBackend.Get at h
  by_cases hkey : key = []
  · simp only [hkey, if_true, Option.some.injEq] at h
    subst h
    simp at he
  · simp only [hkey, if_false, makePartitionKey_eq, slice_one_link] at h
    split at h
    · simp only [Option.some.injEq] at h
      subst h
      simp at he
    · split at h
      · simp only [Option.some.injEq] at h
        subst h
        simp at he
      · split at h
        · simp only [Option.some.injEq] at h
          subst h
          simp at he
        · rename_i hv
          simp only [Option.some.injEq] at h
          subst h
          exact hv

/-- C4: for a non-empty key, when the client returns a response without error
and the body decodes without error to a document whose `value` is empty, `Get`
returns the empty string with the error `Key not found`; and whenever `Get`
returns a nil error the value it returns is non-empty. -/
theorem Get_empty_value_not_found (L : Lib) (c : AzureTableBackend) (w : World) (ctx : Context)
    (key : GoString) (resp : Response) (av : AzureValue) (hkey : key ≠ [])
    (hDo : ∀ req, w.Do req = Except.ok resp)
    (hDl : ∀ req d, w.DoDeadline req d = Except.ok resp)
    (hdec : Unmarshal resp.Body { ID := [], Value := [], PartitionKey := [] } = (av, none))
    (hval : av.Value = []) :
    (∃ r, c.Get L w ctx key = some r ∧ r.value = []
        ∧ r.err = some (Error.errorf (lit "Key not found")))
      ∧ (∀ (w2 : World) (ctx2 : Context) (key2 : GoString) (r2 : GetResult),
          c.Get L w2 ctx2 key2 = some r2 → r2.err = none → r2.value ≠ []) := by
  refine ⟨?_, fun w2 ctx2 key2 r2 h he => Get_err_none L c w2 ctx2 key2 r2 h he⟩
  obtain ⟨r, hr, hp⟩ := Get_of_ok L c w ctx key resp hkey hDo hDl
  rw [hdec] at hp
  simp only [hval, if_true, Prod.mk.injEq] at hp
  exact ⟨r, hr, hp.1, hp.2⟩

/-- C4 at the key `nonexistent-key`, the client answering 404 with the body
the store sends for a missing document. -/
theorem Get_empty_value_not_found_witness :
    lit "nonexistent-key" ≠ []
      ∧ Unmarshal (lit "\x7b\"code\":\"NotFound\",\"message\":\"Resource Not Found\"\x7d")
          { ID := [], Value := [], PartitionKey := [] }
        = ({ ID := [], Value := [], PartitionKey := [] }, none)
      ∧ ∀ L : Lib, ∃ r,
          (NewAzureBackend (lit "acct") (lit "a2V5")).Get L
              (answering (lit "Mon, 02 Jan 2006 15:04:05 GMT")
                { StatusCode := 404,
                  Body := lit "\x7b\"code\":\"NotFound\",\"message\":\"Resource Not Found\"\x7d" })
              { Deadline := none } (lit "nonexistent-key") = some r
            ∧ r.value = [] ∧ r.err = some (Error.errorf (lit "Key not found")) :=
  ⟨by decide, by decide, fun L =>
    (Get_empty_value_not_found L _ _ _ _ _ { ID := [], Value := [], PartitionKey := [] }
      (by decide) (fun _ => rfl) (fun _ _ => rfl) (by decide) rfl).1⟩

/-! ## What `Put` returns -/

/-- C2 (amended): for a non-empty key and a non-empty value `Put` hands exactly
one request to the client and returns the outcome of that call: the client's
error when the call fails, and nil whenever the client returns a response,
whatever the status code of the response. -/
theorem Put_returns_client_outcome (L : Lib) (c : AzureTableBackend) (w : World) (ctx : Context)
    (key value : GoString) (ttl : Int) (hkey : key ≠ []) (hvalue : value ≠ []) :
    ∃ r req, c.Put L w ctx key value ttl = some r ∧ r.sent = [req]
      ∧ req.Method = lit "POST"
      ∧ r.err =
        (match (match ctx.Deadline with
            | some deadline => w.DoDeadline req deadline
            | none => w.Do req) with
          | Except.error err => some err
          | Except.ok _ => none) := by
  simp only [AzureTableBackend.Put, hkey, hvalue, if_false, makePartitionKey_eq, Marshal,
    AzureTableBackend.Send]
  cases hd : ctx.Deadline with
  | none =>
    simp only []
    split
    · rename_i err he
      exact ⟨_, _, rfl, rfl, rfl, by simp only [he]⟩
    · rename_i resp he
      exact ⟨_, _, rfl, rfl, rfl, by simp only [he]⟩
  | some d =>
    simp only []
    split
    · rename_i err he
      exact ⟨_, _, rfl, rfl, rfl, by simp only [he]⟩
    · rename_i resp he
      exact ⟨_, _, rfl, rfl, rfl, by simp only [he]⟩

/-- C2 (amended) at the key `abcdef123`, a client that fails on every call,
and a context with a deadline. -/
theorem Put_returns_client_outcome_witness :
    lit "abcdef123" ≠ [] ∧ lit "\x7b\"x\":1\x7d" ≠ []
      ∧ ∀ L : Lib, ∃ r req,
          (NewAzureBackend (lit "acct") (lit "a2V5")).Put L
              (failing (lit "Mon, 02 Jan 2006 15:04:05 GMT") (Error.client 1))
              { Deadline := some 5 } (lit "abcdef123") (lit "\x7b\"x\":1\x7d") 60 = some r
            ∧ r.sent = [req] ∧ req.Method = lit "POST"
            ∧ r.err =
              (match (match (some 5 : Option Nat) with
                  | some deadline =>
                    (failing (lit "Mon, 02 Jan 2006 15:04:05 GMT") (Error.client 1)).DoDeadline
                      req deadline
                  | none =>
                    (failing (lit "Mon, 02 Jan 2006 15:04:05 GMT") (Error.client 1)).Do req) with
                | Except.error err => some err
                | Except.ok _ => none) :=
  ⟨by decide, by decide, fun L =>
    Put_returns_client_outcome L _ _ _ _ _ 60 (by decide) (by decide)⟩

/-- C2 (counterexample): the client returns a response with status 500 to the
POST, which is no success status, and `Put` returns a nil error. -/
theorem Put_ignores_status :
    ¬ (200 ≤ 500 ∧ 500 < 300)
      ∧ ∀ L : Lib, ∃ r,
          (NewAzureBackend (lit "acct") (lit "a2V5")).Put L
              (answering (lit "Mon, 02 Jan 2006 15:04:05 GMT") { StatusCode := 500, Body := [] })
              { Deadline := none } (lit "abcdef123") (lit "\x7b\"x\":1\x7d") 60 = some r
            ∧ r.err = none := by
  refine ⟨by decide, fun L => ?_⟩
  have hk : lit "abcdef123" ≠ [] := by decide
  have hv : lit "\x7b\"x\":1\x7d" ≠ [] := by decide
  simp only [AzureTableBackend.Put, hk, hv, if_false, makePartitionKey_eq, Marshal,
    AzureTableBackend.Send, answering]
  exact ⟨_, rfl, rfl⟩

/-! ## Signing -/

theorem Peek_date (pk date version auth : GoString) :
    Request.Peek
        { Method := m, RequestURI := u, Body := b,
          Header := [(lit "x-ms-documentdb-partitionkey", pk), (lit "x-ms-date", date),
            (lit "x-ms-version", version), (lit "Authorization", auth)] }
        (lit "x-ms-date") = some date := by
  have h1 : lit "x-ms-documentdb-partitionkey" ≠ lit "x-ms-date" := by decide
  simp [Request.Peek, List.find?, h1]

theorem Peek_Authorization (pk date version auth : GoString) :
    Request.Peek
        { Method := m, RequestURI := u, Body := b,
          Header := [(lit "x-ms-documentdb-partitionkey", pk), (lit "x-ms-date", date),
            (lit "x-ms-version", version), (lit "Authorization", auth)] }
        (lit "Authorization") = some auth := by
  have h1 : lit "x-ms-documentdb-partitionkey" ≠ lit "Authorization" := by decide
  have h2 : lit "x-ms-date" ≠ lit "Authorization" := by decide
  have h3 : lit "x-ms-version" ≠ lit "Authorization" := by decide
  simp [Request.Peek, List.find?, h1, h2, h3]

theorem signReq_eq (L : Lib) (c : AzureTableBackend) (verb link date : GoString) :
    c.signReq L verb (lit "docs") link date = authorization L c.Key verb link date := by
  have h1 : lit "\n" = [0x0A] := by decide
  have h2 : lit "\n\n" = [0x0A, 0x0A] := by decide
  simp only [AzureTableBackend.signReq, authorization, strToSign, h1, h2]

theorem Get_signed (L : Lib) (c : AzureTableBackend) (w : World) (ctx : Context)
    (key : GoString) (hkey : key ≠ []) :
    ∃ r req, c.Get L w ctx key = some r ∧ r.sent = [req]
      ∧ req.Method = lit "GET"
      ∧ req.Peek (lit "x-ms-date") = some w.formattedRequestTime
      ∧ req.Peek (lit "Authorization")
        = some (authorization L c.Key (lit "GET")
            (lit "dbs/prebidcache/colls/cache/docs/" ++ key) w.formattedRequestTime) := by
  simp only [AzureTableBackend.Get, hkey, if_false, makePartitionKey_eq, slice_one_link,
    AzureTableBackend.Send, Request.Add, List.nil_append, List.append_assoc,
    List.singleton_append, signReq_eq, AzureTableBackend.wrapForHeader,
    AzureTableBackend.signReq]
  cases ctx.Deadline <;> simp only [] <;> split <;>
    first
    | exact ⟨_, _, rfl, rfl, rfl, Peek_date _ _ _ _, Peek_Authorization _ _ _ _⟩
    | (split <;>
        first
        | exact ⟨_, _, rfl, rfl, rfl, Peek_date _ _ _ _, Peek_Authorization _ _ _ _⟩
        | (split <;> exact ⟨_, _, rfl, rfl, rfl, Peek_date _ _ _ _, Peek_Authorization _ _ _ _⟩))

theorem Put_signed (L : Lib) (c : AzureTableBackend) (w : World) (ctx : Context)
    (key value : GoString) (ttl : Int) (hkey : key ≠ []) (hvalue : value ≠ []) :
    ∃ r req, c.Put L w ctx key value ttl = some r ∧ r.sent = [req]
      ∧ req.Method = lit "POST"
      ∧ req.Peek (lit "x-ms-date") = some w.formattedRequestTime
      ∧ req.Peek (lit "Authorization")
        = some (authorization L c.Key (lit "POST")
            (lit "dbs/prebidcache/colls/cache") w.formattedRequestTime) := by
  simp only [AzureTableBackend.Put, hkey, hvalue, if_false, makePartitionKey_eq, Marshal,
    AzureTableBackend.Send, Request.Add, List.nil_append, List.append_assoc,
    List.singleton_append, AzureTableBackend.wrapForHeader]
  cases ctx.Deadline <;> simp only [] <;> split <;>
    exact ⟨_, _, rfl, rfl, rfl, Peek_date _ _ _ _, Peek_Authorization _ _ _ _⟩

/-- C7: for a non-empty key (and, for `Put`, a non-empty value) and every
request time, the one request `Get` hands to the client is a `GET` whose
`Authorization` header is the prescribed value for the verb `GET`, the link
`dbs/prebidcache/colls/cache/docs/` followed by the key, and the date the same
request carries in `x-ms-date`; the one request `Put` hands to the client is a
`POST` signed likewise for the link `dbs/prebidcache/colls/cache`.  The key of
the MAC is what `DecodeString` returns for the secret, its decoding when the
secret is valid base64. -/
theorem requests_are_signed (L : Lib) (c : AzureTableBackend) (w : World) (ctx : Context)
    (key value : GoString) (ttl : Int) (hkey : key ≠ []) (hvalue : value ≠ []) :
    (∃ r req, c.Get L w ctx key = some r ∧ r.sent = [req]
        ∧ req.Method = lit "GET"
        ∧ req.Peek (lit "x-ms-date") = some w.formattedRequestTime
        ∧ req.Peek (lit "Authorization")
          = some (authorization L c.Key (lit "GET")
              (lit "dbs/prebidcache/colls/cache/docs/" ++ key) w.formattedRequestTime))
      ∧ (∃ r req, c.Put L w ctx key value ttl = some r ∧ r.sent = [req]
        ∧ req.Method = lit "POST"
        ∧ req.Peek (lit "x-ms-date") = some w.formattedRequestTime
        ∧ req.Peek (lit "Authorization")
          = some (authorization L c.Key (lit "POST")
              (lit "dbs/prebidcache/colls/cache") w.formattedRequestTime)) :=
  ⟨Get_signed L c w ctx key hkey, Put_signed L c w ctx key value ttl hkey hvalue⟩

/-- C7 at the key `abcdef123` on a backend whose secret `a2V5` is valid base64
(it decodes to `key`), in every world and context. -/
theorem requests_are_signed_witness :
    lit "abcdef123" ≠ [] ∧ lit "\x7b\"x\":1\x7d" ≠ []
      ∧ (DecodeString (lit "a2V5")) = (lit "key", none)
      ∧ ∀ (L : Lib) (w : World) (ctx : Context),
        (∃ r req, (NewAzureBackend (lit "acct") (lit "a2V5")).Get L w ctx (lit "abcdef123") = some r
            ∧ r.sent = [req]
            ∧ req.Method = lit "GET"
            ∧ req.Peek (lit "x-ms-date") = some w.formattedRequestTime
            ∧ req.Peek (lit "Authorization")
              = some (authorization L (NewAzureBackend (lit "acct") (lit "a2V5")).Key (lit "GET")
                  (lit "dbs/prebidcache/colls/cache/docs/" ++ lit "abcdef123")
                  w.formattedRequestTime))
          ∧ (∃ r req,
            (NewAzureBackend (lit "acct") (lit "a2V5")).Put L w ctx (lit "abcdef123")
                (lit "\x7b\"x\":1\x7d") 60 = some r
            ∧ r.sent = [req]
            ∧ req.Method = lit "POST"
            ∧ req.Peek (lit "x-ms-date") = some w.formattedRequestTime
            ∧ req.Peek (lit "Authorization")
              = some (authorization L (NewAzureBackend (lit "acct") (lit "a2V5")).Key (lit "POST")
                  (lit "dbs/prebidcache/colls/cache") w.formattedRequestTime)) :=
  ⟨by decide, by decide, by decide, fun L w ctx =>
    requests_are_signed L _ w ctx _ _ 60 (by decide) (by decide)⟩

theorem ToLower_GET (L : Lib) : ToLower L (lit "GET") = ToLower L (lit "get") := by
  have h1 : lit "GET" = [0x47, 0x45, 0x54] := by decide
  have h2 : lit "get" = [0x67, 0x65, 0x74] := by decide
  rw [h1, h2]
  simp [ToLower, mapLoop, DecodeRune, unicodeToLower, EncodeRune]

theorem strToSign_verb (L : Lib) (verb verb2 rt link date : GoString)
    (h : ToLower L verb ≠ ToLower L verb2) :
    strToSign L verb rt link date ≠ strToSign L verb2 rt link date := by
  intro e
  simp only [strToSign, List.append_assoc] at e
  exact h (List.append_cancel_right e)

theorem strToSign_type (L : Lib) (verb rt rt2 link date : GoString) (h : rt ≠ rt2) :
    strToSign L verb rt link date ≠ strToSign L verb rt2 link date := by
  intro e
  simp only [strToSign, List.append_assoc] at e
  exact h (List.append_cancel_right (List.append_cancel_left (List.append_cancel_left e)))

theorem strToSign_link (L : Lib) (verb rt link link2 date : GoString) (h : link ≠ link2) :
    strToSign L verb rt link date ≠ strToSign L verb rt link2 date := by
  intro e
  simp only [strToSign, List.append_assoc] at e
  exact h (List.append_cancel_right (List.append_cancel_left (List.append_cancel_left
    (List.append_cancel_left (List.append_cancel_left e)))))

theorem strToSign_date (L : Lib) (verb rt link date date2 : GoString)
    (h : ToLower L date ≠ ToLower L date2) :
    strToSign L verb rt link date ≠ strToSign L verb rt link date2 := by
  intro e
  simp only [strToSign, List.append_assoc] at e
  exact h (List.append_cancel_right (List.append_cancel_left (List.append_cancel_left
    (List.append_cancel_left (List.append_cancel_left (List.append_cancel_left
      (List.append_cancel_left e)))))))

/-- C8 (amended): `signReq` is a function of the lower-case verb, the resource
type, the resource link, the lower-case date and the bytes `DecodeString`
returns for the secret: calls that agree on these five give the same
signature (in particular equal inputs give equal signatures).  The string that
is signed changes whenever the resource type or the resource link changes, or
the verb or the date changes to a string with another lower-case form, the
other inputs staying fixed. -/
theorem signReq_normal_form (L : Lib) :
    (∀ (c c2 : AzureTableBackend) (verb verb2 rt link date date2 : GoString),
        ToLower L verb = ToLower L verb2 → ToLower L date = ToLower L date2
          → (DecodeString c.Key).1 = (DecodeString c2.Key).1
          → c.signReq L verb rt link date = c2.signReq L verb2 rt link date2)
      ∧ (∀ (verb verb2 rt link date : GoString), ToLower L verb ≠ ToLower L verb2
          → strToSign L verb rt link date ≠ strToSign L verb2 rt link date)
      ∧ (∀ (verb rt rt2 link date : GoString), rt ≠ rt2
          → strToSign L verb rt link date ≠ strToSign L verb rt2 link date)
      ∧ (∀ (verb rt link link2 date : GoString), link ≠ link2
          → strToSign L verb rt link date ≠ strToSign L verb rt link2 date)
      ∧ (∀ (verb rt link date date2 : GoString), ToLower L date ≠ ToLower L date2
          → strToSign L verb rt link date ≠ strToSign L verb rt link date2) := by
  refine ⟨?_, strToSign_verb L, strToSign_type L, strToSign_link L, strToSign_date L⟩
  intro c c2 verb verb2 rt link date date2 hv hd hk
  simp only [AzureTableBackend.signReq, strToSign, hv, hd, hk]

/-- C8 (counterexample): the verbs `GET` and `get` are different strings, and
with the other four inputs fixed they give the same signature, on every
backend and for every resource type, link and date. -/
theorem signReq_ignores_case :
    lit "GET" ≠ lit "get"
      ∧ ∀ (L : Lib) (c : AzureTableBackend) (rt link date : GoString),
          c.signReq L (lit "GET") rt link date = c.signReq L (lit "get") rt link date := by
  refine ⟨by decide, fun L c rt link date => ?_⟩
  simp only [AzureTableBackend.signReq, strToSign, ToLower_GET]

/-! ## Construction -/

/-- C9 (amended): `NewAzureBackend` returns a backend for every account and
every secret, valid base64 or not, and stores the secret as given; `signReq`
on that backend signs with the bytes `DecodeString` returns for the secret,
whether or not it also returned an error; and for a non-empty key `Get` on
that backend hands the client a request that carries this signature. -/
theorem NewAzureBackend_stores_secret (L : Lib) (account secret : GoString) :
    (NewAzureBackend account secret).Key = secret
      ∧ (NewAzureBackend account secret).Account = account
      ∧ (∀ (verb rt link date : GoString),
          (NewAzureBackend account secret).signReq L verb rt link date
            = QueryEscape (lit "type=master&ver=1.0&sig="
                ++ EncodeToString (L.hmacSHA256 (DecodeString secret).1
                    (strToSign L verb rt link date))))
      ∧ (∀ (w : World) (ctx : Context) (key : GoString), key ≠ [] →
          ∃ r req, (NewAzureBackend account secret).Get L w ctx key = some r ∧ r.sent = [req]
            ∧ req.Peek (lit "Authorization")
              = some (authorization L secret (lit "GET")
                  (lit "dbs/prebidcache/colls/cache/docs/" ++ key) w.formattedRequestTime)) := by
  refine ⟨rfl, rfl, fun _ _ _ _ => rfl, fun w ctx key hkey => ?_⟩
  obtain ⟨r, req, h1, h2, _, _, h5⟩ := Get_signed L (NewAzureBackend account secret) w ctx key hkey
  exact ⟨r, req, h1, h2, h5⟩

/-- C9 (counterexample): the secret `a2V5!` is not valid base64, yet
`NewAzureBackend` returns a backend for it, and `signReq` on that backend
produces the very signature of the valid secret `a2V5`: the bytes decoded
before the error are used as the key. -/
theorem NewAzureBackend_accepts_malformed_secret :
    DecodeString (lit "a2V5!") = (lit "key", some Error.corruptInput)
      ∧ DecodeString (lit "a2V5") = (lit "key", none)
      ∧ (NewAzureBackend (lit "acct") (lit "a2V5!")).Key = lit "a2V5!"
      ∧ ∀ (L : Lib) (verb rt link date : GoString),
          (NewAzureBackend (lit "acct") (lit "a2V5!")).signReq L verb rt link date
            = (NewAzureBackend (lit "acct") (lit "a2V5")).signReq L verb rt link date := by
  have h1 : DecodeString (lit "a2V5!") = (lit "key", some Error.corruptInput) := by decide
  have h2 : DecodeString (lit "a2V5") = (lit "key", none) := by decide
  refine ⟨h1, h2, rfl, fun L verb rt link date => ?_⟩
  simp only [AzureTableBackend.signReq, NewAzureBackend, h1, h2]

/-! ## UTF-8 -/

theorem DecodeRune_ascii (b : Nat) (rest : GoString) (h : b < 0x80) :
    DecodeRune (b :: rest) = (b, 1) := by
  simp [DecodeRune, h]

/-- The shape of a decoding step at a byte `b ≥ 0x80`: either the byte starts
no well-formed encoding, or the step reads `k` bytes, `2 ≤ k ≤ 4`, which are
the encoding of the rune, and reads the same whatever follows them. -/
theorem DecodeRune_shape (b : Nat) (rest : GoString) (hb : 0x80 ≤ b) :
    DecodeRune (b :: rest) = (RuneError, 1)
      ∨ ∃ (r : Nat) (mid tail : GoString), rest = mid ++ tail
          ∧ DecodeRune (b :: rest) = (r, mid.length + 1)
          ∧ 1 ≤ mid.length ∧ mid.length ≤ 3
          ∧ EncodeRune r = b :: mid
          ∧ 0x80 ≤ r
          ∧ (∀ t : GoString, DecodeRune (b :: (mid ++ t)) = (r, mid.length + 1)) := by
  unfold DecodeRune
  have h0 : ¬ b < 0x80 := by omega
  simp only [h0, if_false]
  by_cases h1 : b < 0xC2
  · left; simp [h1]
  simp only [h1, if_false]
  by_cases h2 : b < 0xE0
  · simp only [h2, if_true]
    match rest with
    | [] => left; rfl
    | b1 :: t =>
      by_cases hc : b1 < 0x80 ∨ 0xBF < b1
      · left; simp [hc]
      · right
        refine ⟨b % 32 * 64 + b1 % 64, [b1], t, rfl, by simp [hc], by simp, by simp, ?_, by omega, ?_⟩
        · simp only [EncodeRune]
          have e1 : ¬ (b % 32 * 64 + b1 % 64 ≤ 0x7F) := by omega
          have e2 : b % 32 * 64 + b1 % 64 ≤ 0x7FF := by omega
          simp only [e1, e2, if_false, if_true]
          congr 1
          · omega
          · congr 1; omega
        · intro t'; simp [hc]
  simp only [h2, if_false]
  by_cases h3 : b < 0xF0
  · simp only [h3, if_true]
    match rest with
    | [] => left; rfl
    | [_] => left; rfl
    | b1 :: b2 :: t =>
      by_cases hc1 : b1 < (if b = 0xE0 then 0xA0 else 0x80) ∨ (if b = 0xED then 0x9F else 0xBF) < b1
      · left; simp [hc1]
      by_cases hc2 : b2 < 0x80 ∨ 0xBF < b2
      · left; simp [hc1, hc2]
      right
      have hr : 0x800 ≤ b % 16 * 4096 + b1 % 64 * 64 + b2 % 64
          ∧ b % 16 * 4096 + b1 % 64 * 64 + b2 % 64 ≤ 0xFFFF
          ∧ ¬ (0xD800 ≤ b % 16 * 4096 + b1 % 64 * 64 + b2 % 64
              ∧ b % 16 * 4096 + b1 % 64 * 64 + b2 % 64 ≤ 0xDFFF) := by
        split_ifs at hc1 <;> omega
      refine ⟨b % 16 * 4096 + b1 % 64 * 64 + b2 % 64, [b1, b2], t, rfl, by simp [hc1, hc2],
        by simp, by simp, ?_, by omega, ?_⟩
      · simp only [EncodeRune]
        have e1 : ¬ (b % 16 * 4096 + b1 % 64 * 64 + b2 % 64 ≤ 0x7F) := by omega
        have e2 : ¬ (b % 16 * 4096 + b1 % 64 * 64 + b2 % 64 ≤ 0x7FF) := by omega
        have e3 : ¬ (0x10FFFF < b % 16 * 4096 + b1 % 64 * 64 + b2 % 64
            ∨ (0xD800 ≤ b % 16 * 4096 + b1 % 64 * 64 + b2 % 64
              ∧ b % 16 * 4096 + b1 % 64 * 64 + b2 % 64 ≤ 0xDFFF)) := by omega
        simp only [e1, e2, e3, hr.2.1, if_false, if_true]
        have q1 : 0xE0 + (b % 16 * 4096 + b1 % 64 * 64 + b2 % 64) / 4096 = b := by
          split_ifs at hc1 <;> omega
        have q2 : 0x80 + (b % 16 * 4096 + b1 % 64 * 64 + b2 % 64) / 64 % 64 = b1 := by
          split_ifs at hc1 <;> omega
        have q3 : 0x80 + (b % 16 * 4096 + b1 % 64 * 64 + b2 % 64) % 64 = b2 := by omega
        rw [q1, q2, q3]
      · intro t'; simp [hc1, hc2]
  simp only [h3, if_false]
  by_cases h4 : b < 0xF5
  · simp only [h4, if_true]
    match rest with
    | [] => left; rfl
    | [_] => left; rfl
    | [_, _] => left; rfl
    | b1 :: b2 :: b3 :: t =>
      by_cases hc1 : b1 < (if b = 0xF0 then 0x90 else 0x80) ∨ (if b = 0xF4 then 0x8F else 0xBF) < b1
      · left; simp [hc1]
      by_cases hc2 : b2 < 0x80 ∨ 0xBF < b2
      · left; simp [hc1, hc2]
      by_cases hc3 : b3 < 0x80 ∨ 0xBF < b3
      · left; simp [hc1, hc2, hc3]
      right
      have hr : 0x10000 ≤ b % 8 * 262144 + b1 % 64 * 4096 + b2 % 64 * 64 + b3 % 64
          ∧ b % 8 * 262144 + b1 % 64 * 4096 + b2 % 64 * 64 + b3 % 64 ≤ 0x10FFFF := by
        split_ifs at hc1 <;> omega
      refine ⟨b % 8 * 262144 + b1 % 64 * 4096 + b2 % 64 * 64 + b3 % 64, [b1, b2, b3], t, rfl,
        by simp [hc1, hc2, hc3], by simp, by simp, ?_, by omega, ?_⟩
      · simp only [EncodeRune]
        have e1 : ¬ (b % 8 * 262144 + b1 % 64 * 4096 + b2 % 64 * 64 + b3 % 64 ≤ 0x7F) := by omega
        have e2 : ¬ (b % 8 * 262144 + b1 % 64 * 4096 + b2 % 64 * 64 + b3 % 64 ≤ 0x7FF) := by omega
        have e3 : ¬ (0x10FFFF < b % 8 * 262144 + b1 % 64 * 4096 + b2 % 64 * 64 + b3 % 64
            ∨ (0xD800 ≤ b % 8 * 262144 + b1 % 64 * 4096 + b2 % 64 * 64 + b3 % 64
              ∧ b % 8 * 262144 + b1 % 64 * 4096 + b2 % 64 * 64 + b3 % 64 ≤ 0xDFFF)) := by omega
        have e4 : ¬ (b % 8 * 262144 + b1 % 64 * 4096 + b2 % 64 * 64 + b3 % 64 ≤ 0xFFFF) := by omega
        simp only [e1, e2, e3, e4, if_false]
        have q1 : 0xF0 + (b % 8 * 262144 + b1 % 64 * 4096 + b2 % 64 * 64 + b3 % 64) / 262144 = b := by
          split_ifs at hc1 <;> omega
        have q2 : 0x80 + (b % 8 * 262144 + b1 % 64 * 4096 + b2 % 64 * 64 + b3 % 64) / 4096 % 64 = b1 := by
          split_ifs at hc1 <;> omega
        have q3 : 0x80 + (b % 8 * 262144 + b1 % 64 * 4096 + b2 % 64 * 64 + b3 % 64) / 64 % 64 = b2 := by
          omega
        have q4 : 0x80 + (b % 8 * 262144 + b1 % 64 * 4096 + b2 % 64 * 64 + b3 % 64) % 64 = b3 := by
          omega
        rw [q1, q2, q3, q4]
      · intro t'; simp [hc1, hc2, hc3]
  · left; simp [h4]

/-! ## JSON strings: reading what `Marshal` writes -/

theorem unhex_hex (k : Nat) (h : k < 16) : unhex (hex k) = some k := by
  interval_cases k <;> decide

theorem readString_quote (m : Nat) (t : GoString) :
    readString (m + 1) (0x22 :: t) = some ([], t) := by
  simp [readString]

theorem readString_plain (m c : Nat) (t : GoString) (h1 : 0x20 ≤ c) (h2 : c < 0x80)
    (h3 : c ≠ 0x22) (h4 : c ≠ 0x5C) :
    readString (m + 1) (c :: t) = consRead [c] (readString m t) := by
  have h5 : ¬ c < 0x20 := by omega
  simp [readString, h2, h3, h4, h5]

theorem readString_escape (m e : Nat) (t : GoString) (h : e = 0x22 ∨ e = 0x5C) :
    readString (m + 1) (0x5C :: e :: t) = consRead [e] (readString m t) := by
  rcases h with h | h <;> subst h <;> simp [readString]

theorem readString_n (m : Nat) (t : GoString) :
    readString (m + 1) (0x5C :: 0x6E :: t) = consRead [0x0A] (readString m t) := by
  simp [readString]

theorem readString_r (m : Nat) (t : GoString) :
    readString (m + 1) (0x5C :: 0x72 :: t) = consRead [0x0D] (readString m t) := by
  simp [readString]

theorem readString_t (m : Nat) (t : GoString) :
    readString (m + 1) (0x5C :: 0x74 :: t) = consRead [0x09] (readString m t) := by
  simp [readString]

theorem readString_u (m a b c d va vb vc vd : Nat) (t : GoString)
    (ha : unhex a = some va) (hb : unhex b = some vb) (hc : unhex c = some vc)
    (hd : unhex d = some vd)
    (hs : ¬ (0xD800 ≤ va * 4096 + vb * 256 + vc * 16 + vd
      ∧ va * 4096 + vb * 256 + vc * 16 + vd < 0xE000)) :
    readString (m + 1) (0x5C :: 0x75 :: a :: b :: c :: d :: t)
      = consRead (EncodeRune (va * 4096 + vb * 256 + vc * 16 + vd)) (readString m t) := by
  simp [readString, getu4, ha, hb, hc, hd, hs]

theorem readString_rune (m b r : Nat) (mid t : GoString) (hb : 0x80 ≤ b)
    (hd : DecodeRune (b :: (mid ++ t)) = (r, mid.length + 1)) :
    readString (m + 1) (b :: (mid ++ t)) = consRead (EncodeRune r) (readString m t) := by
  have h1 : b ≠ 0x22 := by omega
  have h2 : b ≠ 0x5C := by omega
  have h3 : ¬ b < 0x20 := by omega
  have h4 : ¬ b < 0x80 := by omega
  simp [readString, h1, h2, h3, h4, hd]

theorem coerceLoop_ascii (n b : Nat) (rest : GoString) (h : b < 0x80) :
    coerceLoop (n + 1) (b :: rest) = b :: coerceLoop n rest := by
  have h1 : b ≠ RuneError := by simp only [RuneError]; omega
  simp [coerceLoop, DecodeRune_ascii b rest h, h1]

theorem coerceLoop_invalid (n b : Nat) (rest : GoString)
    (h : DecodeRune (b :: rest) = (RuneError, 1)) :
    coerceLoop (n + 1) (b :: rest) = EncodeRune RuneError ++ coerceLoop n rest := by
  simp [coerceLoop, h]

theorem coerceLoop_rune (n b r : Nat) (mid t : GoString)
    (h : DecodeRune (b :: (mid ++ t)) = (r, mid.length + 1)) (hm : 1 ≤ mid.length) :
    coerceLoop (n + 1) (b :: (mid ++ t)) = b :: mid ++ coerceLoop n t := by
  have h2 : mid ≠ [] := by
    intro e
    simp [e] at hm
  simp [coerceLoop, h, h2]

theorem encodeLoop_invalid (n b : Nat) (rest : GoString) (hb : 0x80 ≤ b)
    (h : DecodeRune (b :: rest) = (RuneError, 1)) :
    encodeLoop (n + 1) (b :: rest)
      = [0x5C, 0x75, 0x66, 0x66, 0x66, 0x64] ++ encodeLoop n rest := by
  have h0 : ¬ b < 0x80 := by omega
  simp [encodeLoop, h, h0]

theorem encodeLoop_rune (n b r : Nat) (mid t : GoString) (hb : 0x80 ≤ b)
    (h : DecodeRune (b :: (mid ++ t)) = (r, mid.length + 1)) (hm : 1 ≤ mid.length) :
    encodeLoop (n + 1) (b :: (mid ++ t))
      = if r = 0x2028 ∨ r = 0x2029 then
          [0x5C, 0x75, 0x32, 0x30, 0x32, hex (r % 16)] ++ encodeLoop n t
        else b :: mid ++ encodeLoop n t := by
  have h0 : ¬ b < 0x80 := by omega
  have h1 : ¬ (r = RuneError ∧ mid.length + 1 = 1) := by omega
  simp only [encodeLoop, h0, if_false, h, h1]
  simp

theorem readString_encodeLoop (n : Nat) :
    ∀ (s tail : GoString) (m : Nat), s.length ≤ n → (encodeLoop n s).length < m →
      readString m (encodeLoop n s ++ 0x22 :: tail) = some (coerceLoop n s, tail) := by
  induction n with
  | zero =>
    intro s tail m hs hm
    have : s = [] := List.length_eq_zero.mp (by omega)
    subst this
    obtain ⟨m, rfl⟩ : ∃ k, m = k + 1 := ⟨m - 1, by simp [encodeLoop] at hm; omega⟩
    simp [encodeLoop, coerceLoop, readString_quote]
  | succ n ih =>
    intro s tail m hs hm
    match s with
    | [] =>
      obtain ⟨m, rfl⟩ : ∃ k, m = k + 1 := ⟨m - 1, by simp [encodeLoop] at hm; omega⟩
      simp [encodeLoop, coerceLoop, readString_quote]
    | b :: rest =>
      have hrest : rest.length ≤ n := by simpa using hs
      by_cases hb : b < 0x80
      · rw [coerceLoop_ascii n b rest hb]
        by_cases hsafe : htmlSafeSet b = true
        · have e : encodeLoop (n + 1) (b :: rest) = b :: encodeLoop n rest := by
            simp [encodeLoop, hb, hsafe]
          rw [e] at hm ⊢
          obtain ⟨m, rfl⟩ : ∃ k, m = k + 1 := ⟨m - 1, by simp at hm; omega⟩
          simp only [htmlSafeSet, decide_eq_true_eq] at hsafe
          rw [List.cons_append, readString_plain m b _ hsafe.1 hb hsafe.2.1 hsafe.2.2.2.2.2,
            ih rest tail m hrest (by simp at hm; omega)]
          rfl
        · by_cases h1 : b = 0x5C ∨ b = 0x22
          · have e : encodeLoop (n + 1) (b :: rest) = 0x5C :: b :: encodeLoop n rest := by
              simp [encodeLoop, hb, hsafe, h1]
            rw [e] at hm ⊢
            obtain ⟨m, rfl⟩ : ∃ k, m = k + 1 := ⟨m - 1, by simp at hm; omega⟩
            rw [List.cons_append, List.cons_append, readString_escape m b _ h1.symm,
              ih rest tail m hrest (by simp at hm; omega)]
            rfl
          by_cases h2 : b = 0x0A
          · have e : encodeLoop (n + 1) (b :: rest) = 0x5C :: 0x6E :: encodeLoop n rest := by
              simp [encodeLoop, hb, hsafe, h1, h2]
              subst h2; simp [htmlSafeSet]
            rw [e] at hm ⊢
            obtain ⟨m, rfl⟩ : ∃ k, m = k + 1 := ⟨m - 1, by simp at hm; omega⟩
            rw [List.cons_append, List.cons_append, readString_n,
              ih rest tail m hrest (by simp at hm; omega), h2]
            rfl
          by_cases h3 : b = 0x0D
          · have e : encodeLoop (n + 1) (b :: rest) = 0x5C :: 0x72 :: encodeLoop n rest := by
              subst h3; simp [encodeLoop, htmlSafeSet]
            rw [e] at hm ⊢
            obtain ⟨m, rfl⟩ : ∃ k, m = k + 1 := ⟨m - 1, by simp at hm; omega⟩
            rw [List.cons_append, List.cons_append, readString_r,
              ih rest tail m hrest (by simp at hm; omega), h3]
            rfl
          by_cases h4 : b = 0x09
          · have e : encodeLoop (n + 1) (b :: rest) = 0x5C :: 0x74 :: encodeLoop n rest := by
              subst h4; simp [encodeLoop, htmlSafeSet]
            rw [e] at hm ⊢
            obtain ⟨m, rfl⟩ : ∃ k, m = k + 1 := ⟨m - 1, by simp at hm; omega⟩
            rw [List.cons_append, List.cons_append, readString_t,
              ih rest tail m hrest (by simp at hm; omega), h4]
            rfl
          · have e : encodeLoop (n + 1) (b :: rest)
                = 0x5C :: 0x75 :: 0x30 :: 0x30 :: hex (b / 16) :: hex (b % 16)
                    :: encodeLoop n rest := by
              simp [encodeLoop, hb, hsafe, h1, h2, h3, h4]
            rw [e] at hm ⊢
            obtain ⟨m, rfl⟩ : ∃ k, m = k + 1 := ⟨m - 1, by simp at hm; omega⟩
            simp only [List.cons_append]
            rw [readString_u m 0x30 0x30 (hex (b / 16)) (hex (b % 16)) 0 0 (b / 16) (b % 16) _
              (by decide) (by decide) (unhex_hex _ (by omega)) (unhex_hex _ (by omega))
              (by omega),
              ih rest tail m hrest (by simp at hm; omega)]
            have e2 : 0 * 4096 + 0 * 256 + b / 16 * 16 + b % 16 = b := by omega
            have e3 : EncodeRune b = [b] := by
              simp only [EncodeRune]
              have : b ≤ 0x7F := by omega
              simp [this]
            rw [e2, e3]
            rfl
      · have hb2 : 0x80 ≤ b := by omega
        rcases DecodeRune_shape b rest hb2 with hinv | ⟨r, mid, t, hrt, hd, hm1, hm3, henc, hr, hloc⟩
        · rw [coerceLoop_invalid n b rest hinv, encodeLoop_invalid n b rest hb2 hinv] at *
          obtain ⟨m, rfl⟩ : ∃ k, m = k + 1 := ⟨m - 1, by simp at hm; omega⟩
          simp only [List.cons_append, List.nil_append]
          rw [readString_u m 0x66 0x66 0x66 0x64 15 15 15 13 _
            (by decide) (by decide) (by decide) (by decide) (by decide),
            ih rest tail m hrest (by simp at hm; omega)]
          rfl
        · subst hrt
          have ht : t.length ≤ n := by
            simp only [List.length_append] at hrest
            omega
          rw [coerceLoop_rune n b r mid t hd hm1, encodeLoop_rune n b r mid t hb2 hd hm1] at *
          by_cases hls : r = 0x2028 ∨ r = 0x2029
          · simp only [hls, if_true] at hm ⊢
            obtain ⟨m, rfl⟩ : ∃ k, m = k + 1 := ⟨m - 1, by simp at hm; omega⟩
            simp only [List.cons_append, List.nil_append]
            rw [readString_u m 0x32 0x30 0x32 (hex (r % 16)) 2 0 2 (r % 16) _
              (by decide) (by decide) (by decide) (unhex_hex _ (by omega))
              (by omega),
              ih t tail m ht (by simp at hm; omega)]
            have e2 : 2 * 4096 + 0 * 256 + 2 * 16 + r % 16 = r := by omega
            rw [e2, henc]
            rfl
          · simp only [hls, if_false] at hm ⊢
            obtain ⟨m, rfl⟩ : ∃ k, m = k + 1 := ⟨m - 1, by simp at hm; omega⟩
            have e : b :: mid ++ encodeLoop n t ++ 0x22 :: tail
                = b :: (mid ++ (encodeLoop n t ++ 0x22 :: tail)) := by simp
            rw [e, readString_rune m b r mid _ hb2 (hloc _),
              ih t tail m ht (by simp at hm; omega), henc]
            simp [consRead]

theorem coerceLoop_valid (n : Nat) :
    ∀ s : GoString, s.length ≤ n → validLoop n s = true → coerceLoop n s = s := by
  induction n with
  | zero =>
    intro s hs _
    have : s = [] := List.length_eq_zero.mp (by omega)
    subst this
    rfl
  | succ n ih =>
    intro s hs hv
    match s with
    | [] => rfl
    | b :: rest =>
      have hrest : rest.length ≤ n := by simpa using hs
      by_cases hb : b < 0x80
      · rw [coerceLoop_ascii n b rest hb]
        have h1 : b ≠ RuneError := by simp only [RuneError]; omega
        simp only [validLoop, DecodeRune_ascii b rest hb, h1, false_and, if_false] at hv
        rw [ih rest hrest (by simpa using hv)]
      · rcases DecodeRune_shape b rest (by omega) with hinv | ⟨r, mid, t, hrt, hd, hm1, _, _, _, _⟩
        · simp [validLoop, hinv] at hv
        · subst hrt
          have ht : t.length ≤ n := by
            simp only [List.length_append] at hrest
            omega
          have h2 : mid ≠ [] := by
            intro e
            simp [e] at hm1
          rw [coerceLoop_rune n b r mid t hd hm1]
          simp only [validLoop, hd] at hv
          simp [h2] at hv
          rw [ih t ht hv]
          simp

theorem toValidUTF8_of_valid (s : GoString) (h : ValidString s = true) : toValidUTF8 s = s :=
  coerceLoop_valid s.length s (Nat.le_refl _) h

theorem toValidUTF8_ne_nil (s : GoString) (h : s ≠ []) : toValidUTF8 s ≠ [] := by
  match s with
  | [] => exact absurd rfl h
  | b :: rest =>
    simp only [toValidUTF8, List.length_cons]
    by_cases hb : b < 0x80
    · rw [coerceLoop_ascii _ b rest hb]
      simp
    · rcases DecodeRune_shape b rest (by omega) with hinv | ⟨r, mid, t, hrt, hd, hm1, _, _, _, _⟩
      · rw [coerceLoop_invalid _ b rest hinv]
        simp [EncodeRune, RuneError]
      · subst hrt
        rw [coerceLoop_rune _ b r mid t hd hm1]
        simp

theorem readString_encodeString (s tail : GoString) :
    readString (encodeLoop s.length s ++ 0x22 :: tail).length
        (encodeLoop s.length s ++ 0x22 :: tail)
      = some (toValidUTF8 s, tail) :=
  readString_encodeLoop s.length s tail _ (Nat.le_refl _) (by simp)


/-! ## `Unmarshal` after `Marshal` -/

theorem skipSpace_quote (t : GoString) : skipSpace (0x22 :: t) = 0x22 :: t := by
  simp [skipSpace]

theorem skipSpace_encodeString (s t : GoString) :
    skipSpace (encodeString s ++ t) = encodeString s ++ t := by
  simp [encodeString, skipSpace]

theorem readValue_string (n : Nat) (s tail : GoString) :
    readValue (n + 1) (encodeString s ++ tail) = some (JSON.string (toValidUTF8 s), tail) := by
  have h := readString_encodeLoop s.length s tail
    (List.length (encodeLoop s.length s) + (tail.length + 1)) (Nat.le_refl _) (by omega)
  simp [readValue, encodeString, h, toValidUTF8]

theorem readMembers_more (n : Nat) (r r1 r2 r3 r4 k : GoString) (v : JSON)
    (hk : readString r.length r = some (k, r1)) (hc : skipSpace r1 = 0x3A :: r2)
    (hv : readValue n (skipSpace r2) = some (v, r3)) (hs : skipSpace r3 = 0x2C :: r4) :
    readMembers (n + 1) (0x22 :: r)
      = (readMembers n (skipSpace r4)).map (fun p => ((k, v) :: p.1, p.2)) := by
  cases h : readMembers n (skipSpace r4) <;> simp [readMembers, hk, hc, hv, hs, h]

theorem readMembers_last (n : Nat) (r r1 r2 r3 r4 k : GoString) (v : JSON)
    (hk : readString r.length r = some (k, r1)) (hc : skipSpace r1 = 0x3A :: r2)
    (hv : readValue n (skipSpace r2) = some (v, r3)) (hs : skipSpace r3 = 0x7D :: r4) :
    readMembers (n + 1) (0x22 :: r) = some ([(k, v)], r4) := by
  simp [readMembers, hk, hc, hv, hs]

theorem readValue_object (n : Nat) (rest r1 : GoString) (ms : List (GoString × JSON))
    (h0 : (skipSpace rest).head? ≠ some 0x7D)
    (hm : readMembers n (skipSpace rest) = some (ms, r1)) :
    readValue (n + 1) (0x7B :: rest) = some (JSON.object ms, r1) := by
  simp [readValue, h0, hm]

/-- Reads one member whose key literal is `key` and whose value is the string
`s` as `Marshal` writes it. -/
theorem readValue_member (n : Nat) (s t : GoString) :
    skipSpace (0x3A :: (encodeString s ++ t)) = 0x3A :: (encodeString s ++ t)
      ∧ readValue (n + 1) (skipSpace (encodeString s ++ t))
        = some (JSON.string (toValidUTF8 s), t) := by
  refine ⟨by simp [skipSpace], ?_⟩
  rw [skipSpace_encodeString]
  exact readValue_string n s t

theorem readString_key_id (t : GoString) :
    readString (0x69 :: 0x64 :: 0x22 :: t).length (0x69 :: 0x64 :: 0x22 :: t)
      = some ([0x69, 0x64], t) := by
  simp [readString, consRead]

theorem readString_key_value (t : GoString) :
    readString (0x76 :: 0x61 :: 0x6C :: 0x75 :: 0x65 :: 0x22 :: t).length
        (0x76 :: 0x61 :: 0x6C :: 0x75 :: 0x65 :: 0x22 :: t)
      = some ([0x76, 0x61, 0x6C, 0x75, 0x65], t) := by
  simp [readString, consRead]

theorem readString_key_partition (t : GoString) :
    readString
        (0x70 :: 0x61 :: 0x72 :: 0x74 :: 0x69 :: 0x74 :: 0x69 :: 0x6F :: 0x6E :: 0x22 :: t).length
        (0x70 :: 0x61 :: 0x72 :: 0x74 :: 0x69 :: 0x74 :: 0x69 :: 0x6F :: 0x6E :: 0x22 :: t)
      = some ([0x70, 0x61, 0x72, 0x74, 0x69, 0x74, 0x69, 0x6F, 0x6E], t) := by
  simp [readString, consRead]

theorem Marshal_bytes (av : AzureValue) :
    (Marshal av).1
      = 0x7B :: 0x22 :: 0x69 :: 0x64 :: 0x22 :: 0x3A :: (encodeString av.ID
        ++ 0x2C :: 0x22 :: 0x76 :: 0x61 :: 0x6C :: 0x75 :: 0x65 :: 0x22 :: 0x3A
          :: (encodeString av.Value
        ++ 0x2C :: 0x22 :: 0x70 :: 0x61 :: 0x72 :: 0x74 :: 0x69 :: 0x74 :: 0x69 :: 0x6F :: 0x6E
          :: 0x22 :: 0x3A :: (encodeString av.PartitionKey ++ [0x7D]))) := by
  have h1 : lit "\x7b\"id\":" = [0x7B, 0x22, 0x69, 0x64, 0x22, 0x3A] := by decide
  have h2 : lit ",\"value\":" = [0x2C, 0x22, 0x76, 0x61, 0x6C, 0x75, 0x65, 0x22, 0x3A] := by
    decide
  have h3 : lit ",\"partition\":"
      = [0x2C, 0x22, 0x70, 0x61, 0x72, 0x74, 0x69, 0x74, 0x69, 0x6F, 0x6E, 0x22, 0x3A] := by
    decide
  have h4 : lit "\x7d" = [0x7D] := by decide
  simp only [Marshal, h1, h2, h3, h4, List.cons_append, List.nil_append, List.append_assoc]

theorem readValue_Marshal (n : Nat) (av : AzureValue) :
    readValue (n + 5) (Marshal av).1
      = some (JSON.object [(lit "id", JSON.string (toValidUTF8 av.ID)),
          (lit "value", JSON.string (toValidUTF8 av.Value)),
          (lit "partition", JSON.string (toValidUTF8 av.PartitionKey))], []) := by
  have k1 : lit "id" = [0x69, 0x64] := by decide
  have k2 : lit "value" = [0x76, 0x61, 0x6C, 0x75, 0x65] := by decide
  have k3 : lit "partition" = [0x70, 0x61, 0x72, 0x74, 0x69, 0x74, 0x69, 0x6F, 0x6E] := by decide
  rw [Marshal_bytes, k1, k2, k3]
  have m3 := readMembers_last (n + 1)
    (0x70 :: 0x61 :: 0x72 :: 0x74 :: 0x69 :: 0x74 :: 0x69 :: 0x6F :: 0x6E :: 0x22 :: 0x3A
      :: (encodeString av.PartitionKey ++ [0x7D]))
    (0x3A :: (encodeString av.PartitionKey ++ [0x7D])) (encodeString av.PartitionKey ++ [0x7D])
    [0x7D] [] [0x70, 0x61, 0x72, 0x74, 0x69, 0x74, 0x69, 0x6F, 0x6E]
    (JSON.string (toValidUTF8 av.PartitionKey))
    (readString_key_partition _) (readValue_member n _ _).1 (readValue_member n _ _).2
    (by simp [skipSpace])
  have m2 := readMembers_more (n + 2)
    (0x76 :: 0x61 :: 0x6C :: 0x75 :: 0x65 :: 0x22 :: 0x3A :: (encodeString av.Value
      ++ 0x2C :: 0x22 :: 0x70 :: 0x61 :: 0x72 :: 0x74 :: 0x69 :: 0x74 :: 0x69 :: 0x6F :: 0x6E
        :: 0x22 :: 0x3A :: (encodeString av.PartitionKey ++ [0x7D])))
    _ _ _ _ [0x76, 0x61, 0x6C, 0x75, 0x65] (JSON.string (toValidUTF8 av.Value))
    (readString_key_value _) (readValue_member (n + 1) _ _).1 (readValue_member (n + 1) _ _).2
    (by simp [skipSpace]; rfl)
  rw [skipSpace_quote, m3] at m2
  have m1 := readMembers_more (n + 3)
    (0x69 :: 0x64 :: 0x22 :: 0x3A :: (encodeString av.ID
      ++ 0x2C :: 0x22 :: 0x76 :: 0x61 :: 0x6C :: 0x75 :: 0x65 :: 0x22 :: 0x3A
        :: (encodeString av.Value
      ++ 0x2C :: 0x22 :: 0x70 :: 0x61 :: 0x72 :: 0x74 :: 0x69 :: 0x74 :: 0x69 :: 0x6F :: 0x6E
        :: 0x22 :: 0x3A :: (encodeString av.PartitionKey ++ [0x7D]))))
    _ _ _ _ [0x69, 0x64] (JSON.string (toValidUTF8 av.ID))
    (readString_key_id _) (readValue_member (n + 2) _ _).1 (readValue_member (n + 2) _ _).2
    (by simp [skipSpace]; rfl)
  rw [skipSpace_quote, m2] at m1
  exact readValue_object (n + 4) _ _ _ (by simp [skipSpace]) (by rw [skipSpace_quote]; exact m1)

theorem readJSON_Marshal (av : AzureValue) :
    readJSON (Marshal av).1
      = some (JSON.object [(lit "id", JSON.string (toValidUTF8 av.ID)),
          (lit "value", JSON.string (toValidUTF8 av.Value)),
          (lit "partition", JSON.string (toValidUTF8 av.PartitionKey))]) := by
  have hs : skipSpace (Marshal av).1 = (Marshal av).1 := by
    rw [Marshal_bytes]
    simp [skipSpace]
  have hl : 2 * (Marshal av).1.length + 2 = (2 * (Marshal av).1.length - 3) + 5 := by
    have : 6 ≤ (Marshal av).1.length := by
      rw [Marshal_bytes]
      simp
    omega
  unfold readJSON
  rw [hs, hl, readValue_Marshal]
  simp [skipSpace]

theorem Unmarshal_Marshal (av zero : AzureValue) :
    Unmarshal (Marshal av).1 zero
      = ({ ID := toValidUTF8 av.ID, Value := toValidUTF8 av.Value,
           PartitionKey := toValidUTF8 av.PartitionKey }, none) := by
  have f1 : equalFold (lit "id") (lit "id") = true := by decide
  have f2 : equalFold (lit "id") (lit "value") = false := by decide
  have f3 : equalFold (lit "value") (lit "value") = true := by decide
  have f4 : equalFold (lit "id") (lit "partition") = false := by decide
  have f5 : equalFold (lit "value") (lit "partition") = false := by decide
  have f6 : equalFold (lit "partition") (lit "partition") = true := by decide
  simp [Unmarshal, readJSON_Marshal, storeMember, f1, f2, f3, f4, f5, f6]

/-! ## The round trip -/

theorem Put_of_ok (L : Lib) (c : AzureTableBackend) (w : World) (ctx : Context)
    (key value : GoString) (ttl : Int) (ack : Response) (hkey : key ≠ []) (hvalue : value ≠ [])
    (hDo : ∀ req, w.Do req = Except.ok ack)
    (hDl : ∀ req d, w.DoDeadline req d = Except.ok ack) :
    ∃ p posted, c.Put L w ctx key value ttl = some p ∧ p.err = none ∧ p.sent = [posted]
      ∧ posted.Method = lit "POST"
      ∧ posted.Body
        = (Marshal { ID := key, Value := value, PartitionKey := key.take 4 }).1 := by
  simp only [AzureTableBackend.Put, hkey, hvalue, if_false, makePartitionKey_eq, Marshal,
    AzureTableBackend.Send]
  cases hd : ctx.Deadline with
  | none =>
    simp only [hDo]
    exact ⟨_, _, rfl, rfl, rfl, rfl, rfl⟩
  | some d =>
    simp only [hDl]
    exact ⟨_, _, rfl, rfl, rfl, rfl, rfl⟩

theorem Get_of_held (L : Lib) (c : AzureTableBackend) (w : World) (ctx : Context)
    (key value partitionKey : GoString) (held : Response) (hkey : key ≠ [])
    (hvalue : value ≠ [])
    (hheld : held.Body
      = (Marshal { ID := key, Value := value, PartitionKey := partitionKey }).1)
    (hDo : ∀ req, w.Do req = Except.ok held)
    (hDl : ∀ req d, w.DoDeadline req d = Except.ok held) :
    ∃ g, c.Get L w ctx key = some g ∧ g.err = none ∧ g.value = toValidUTF8 value := by
  obtain ⟨g, hg, hv⟩ := Get_of_ok L c w ctx key held hkey hDo hDl
  rw [hheld, Unmarshal_Marshal] at hv
  have hne := toValidUTF8_ne_nil value hvalue
  simp only [hne, if_false, Prod.mk.injEq] at hv
  exact ⟨g, hg, hv.2, hv.1⟩

/-- C1 (amended): for a non-empty key, a non-empty value and any ttl, when the
client acknowledges the POST, `Put` returns no error and has handed the client
one request, a POST; and when the GET for the key is then answered with the
body of that POST, `Get` returns no error and returns the value coerced to
valid UTF-8 (every byte that starts no well-formed encoding replaced by
U+FFFD), which is the value itself, byte for byte, when the value is valid
UTF-8. -/
theorem Put_Get_roundtrip (L : Lib) (c : AzureTableBackend) (wPut : World) (ctxPut : Context)
    (key value : GoString) (ttl : Int) (ack : Response) (hkey : key ≠ []) (hvalue : value ≠ [])
    (hDo : ∀ req, wPut.Do req = Except.ok ack)
    (hDl : ∀ req d, wPut.DoDeadline req d = Except.ok ack) :
    ∃ p posted, c.Put L wPut ctxPut key value ttl = some p ∧ p.err = none ∧ p.sent = [posted]
      ∧ posted.Method = lit "POST"
      ∧ ∀ (wGet : World) (ctxGet : Context) (held : Response), held.Body = posted.Body →
          (∀ req, wGet.Do req = Except.ok held) →
          (∀ req d, wGet.DoDeadline req d = Except.ok held) →
          ∃ g, p.backend.Get L wGet ctxGet key = some g ∧ g.err = none
            ∧ g.value = toValidUTF8 value
            ∧ (ValidString value = true → g.value = value) := by
  obtain ⟨p, posted, hp, he, hs, hm, hb⟩ :=
    Put_of_ok L c wPut ctxPut key value ttl ack hkey hvalue hDo hDl
  refine ⟨p, posted, hp, he, hs, hm, ?_⟩
  intro wGet ctxGet held hheld hDo2 hDl2
  obtain ⟨g, hg, hge, hgv⟩ :=
    Get_of_held L p.backend wGet ctxGet key value (key.take 4) held hkey hvalue
      (hheld.trans hb) hDo2 hDl2
  refine ⟨g, hg, hge, hgv, ?_⟩
  intro hvalid
  rw [hgv, toValidUTF8_of_valid value hvalid]

/-- C1 (amended) at the key `abcdef123`, the value `{"x":1}` and ttl 60. -/
theorem Put_Get_roundtrip_witness :
    lit "abcdef123" ≠ [] ∧ lit "\x7b\"x\":1\x7d" ≠ []
      ∧ ValidString (lit "\x7b\"x\":1\x7d") = true
      ∧ ∀ L : Lib, ∃ p posted,
          (NewAzureBackend (lit "acct") (lit "a2V5")).Put L
              (answering (lit "Mon, 02 Jan 2006 15:04:05 GMT") { StatusCode := 201, Body := [] })
              { Deadline := none } (lit "abcdef123") (lit "\x7b\"x\":1\x7d") 60 = some p
            ∧ p.err = none ∧ p.sent = [posted] ∧ posted.Method = lit "POST"
            ∧ ∀ (wGet : World) (ctxGet : Context) (held : Response),
                held.Body = posted.Body →
                (∀ req, wGet.Do req = Except.ok held) →
                (∀ req d, wGet.DoDeadline req d = Except.ok held) →
                ∃ g, p.backend.Get L wGet ctxGet (lit "abcdef123") = some g ∧ g.err = none
                  ∧ g.value = toValidUTF8 (lit "\x7b\"x\":1\x7d")
                  ∧ (ValidString (lit "\x7b\"x\":1\x7d") = true
                      → g.value = lit "\x7b\"x\":1\x7d") :=
  ⟨by decide, by decide, by decide, fun L =>
    Put_Get_roundtrip L _ _ _ _ _ 60 { StatusCode := 201, Body := [] } (by decide) (by decide)
      (fun _ => rfl) (fun _ _ => rfl)⟩

/-- C1 (counterexample): the value is the single byte `0xFF`, the client
acknowledges the POST and the GET is answered with the body of that POST;
`Put` and `Get` return no error, and `Get` returns the three bytes
`EF BF BD`, not the value. -/
theorem Put_Get_changes_invalid_utf8 :
    lit "abcdef123" ≠ [] ∧ ([0xFF] : GoString) ≠ []
      ∧ ∀ L : Lib, ∃ p posted g,
          (NewAzureBackend (lit "acct") (lit "a2V5")).Put L
              (answering (lit "Mon, 02 Jan 2006 15:04:05 GMT") { StatusCode := 201, Body := [] })
              { Deadline := none } (lit "abcdef123") [0xFF] 60 = some p
            ∧ p.err = none ∧ p.sent = [posted]
            ∧ p.backend.Get L
                (answering (lit "Mon, 02 Jan 2006 15:04:05 GMT")
                  { StatusCode := 200, Body := posted.Body })
                { Deadline := none } (lit "abcdef123") = some g
            ∧ g.err = none ∧ g.value = [0xEF, 0xBF, 0xBD] ∧ g.value ≠ [0xFF] := by
  refine ⟨by decide, by decide, fun L => ?_⟩
  obtain ⟨p, posted, hp, he, hs, _, hb⟩ :=
    Put_of_ok L (NewAzureBackend (lit "acct") (lit "a2V5"))
      (answering (lit "Mon, 02 Jan 2006 15:04:05 GMT") { StatusCode := 201, Body := [] })
      { Deadline := none } (lit "abcdef123") [0xFF] 60 { StatusCode := 201, Body := [] }
      (by decide) (by decide) (fun _ => rfl) (fun _ _ => rfl)
  obtain ⟨g, hg, hge, hgv⟩ :=
    Get_of_held L p.backend
      (answering (lit "Mon, 02 Jan 2006 15:04:05 GMT")
        { StatusCode := 200, Body := posted.Body })
      { Deadline := none } (lit "abcdef123") [0xFF] ((lit "abcdef123").take 4)
      { StatusCode := 200, Body := posted.Body } (by decide) (by decide) hb (fun _ => rfl)
      (fun _ _ => rfl)
  have hc : toValidUTF8 [0xFF] = [0xEF, 0xBF, 0xBD] := by decide
  rw [hc] at hgv
  exact ⟨p, posted, g, hp, he, hs, hg, hge, hgv, by rw [hgv]; decide⟩

/-! ## The partition-key header -/

theorem readString_raw (n : Nat) :
    ∀ (s tail : GoString) (m : Nat), s.length ≤ n → validLoop n s = true →
      (∀ b ∈ s, 0x20 ≤ b ∧ b ≠ 0x22 ∧ b ≠ 0x5C) → s.length < m →
      readString m (s ++ 0x22 :: tail) = some (s, tail) := by
  induction n with
  | zero =>
    intro s tail m hs _ _ hm
    have : s = [] := List.length_eq_zero.mp (by omega)
    subst this
    obtain ⟨m, rfl⟩ : ∃ k, m = k + 1 := ⟨m - 1, by simp at hm; omega⟩
    simp [readString_quote]
  | succ n ih =>
    intro s tail m hs hv hp hm
    match s with
    | [] =>
      obtain ⟨m, rfl⟩ : ∃ k, m = k + 1 := ⟨m - 1, by simp at hm; omega⟩
      simp [readString_quote]
    | b :: rest =>
      have hrest : rest.length ≤ n := by simpa using hs
      obtain ⟨m, rfl⟩ : ∃ k, m = k + 1 := ⟨m - 1, by simp at hm; omega⟩
      have hb0 := hp b (List.mem_cons_self _ _)
      by_cases hb : b < 0x80
      · have h1 : b ≠ RuneError := by simp only [RuneError]; omega
        simp only [validLoop, DecodeRune_ascii b rest hb, h1, false_and, if_false] at hv
        rw [List.cons_append, readString_plain m b _ hb0.1 hb hb0.2.1 hb0.2.2,
          ih rest tail m hrest (by simpa using hv)
            (fun x hx => hp x (List.mem_cons_of_mem _ hx)) (by simp at hm; omega)]
        rfl
      · rcases DecodeRune_shape b rest (by omega) with
          hinv | ⟨r, mid, t, hrt, hd, hm1, _, henc, _, hloc⟩
        · simp [validLoop, hinv] at hv
        · subst hrt
          have ht : t.length ≤ n := by
            simp only [List.length_append] at hrest
            omega
          have h2 : mid ≠ [] := by
            intro e
            simp [e] at hm1
          simp only [validLoop, hd] at hv
          simp [h2] at hv
          have e : b :: (mid ++ t) ++ 0x22 :: tail = b :: (mid ++ (t ++ 0x22 :: tail)) := by simp
          rw [e, readString_rune m b r mid _ (by omega) (hloc _),
            ih t tail m ht hv
              (fun x hx => hp x (List.mem_cons_of_mem _ (List.mem_append_right _ hx)))
              (by simp at hm; omega), henc]
          simp [consRead]

theorem readValue_quoted (n : Nat) (rest str r : GoString)
    (h : readString rest.length rest = some (str, r)) :
    readValue (n + 1) (0x22 :: rest) = some (JSON.string str, r) := by
  simp [readValue, h]

theorem readItems_single (n : Nat) (s r rest : GoString) (v : JSON)
    (hv : readValue n s = some (v, r)) (hs : skipSpace r = 0x5D :: rest) :
    readItems (n + 1) s = some ([v], rest) := by
  simp [readItems, hv, hs]

theorem readValue_array (n : Nat) (rest r1 : GoString) (vs : List JSON)
    (h0 : (skipSpace rest).head? ≠ some 0x5D)
    (hm : readItems n (skipSpace rest) = some (vs, r1)) :
    readValue (n + 1) (0x5B :: rest) = some (JSON.array vs, r1) := by
  simp [readValue, h0, hm]

theorem singleString_wrapped (pk : GoString) (hp : Plain pk) :
    singleString (0x5B :: 0x22 :: (pk ++ [0x22, 0x5D])) = some pk := by
  have h := readString_raw pk.length pk [0x5D] (pk ++ [0x22, 0x5D]).length (Nat.le_refl _)
    hp.1 hp.2 (by simp)
  have hl : 2 * (0x5B :: 0x22 :: (pk ++ [0x22, 0x5D])).length + 2
      = (2 * (0x5B :: 0x22 :: (pk ++ [0x22, 0x5D])).length - 1) + 3 := by
    simp
    omega
  have hv := readValue_array (2 * (0x5B :: 0x22 :: (pk ++ [0x22, 0x5D])).length - 1 + 2)
    (0x22 :: (pk ++ [0x22, 0x5D])) [] [JSON.string pk] (by simp [skipSpace])
    (by
      rw [skipSpace_quote]
      exact readItems_single _ _ [0x5D] [] _ (readValue_quoted _ _ _ _ h) (by simp [skipSpace]))
  have hs : skipSpace (0x5B :: 0x22 :: (pk ++ [0x22, 0x5D]))
      = 0x5B :: 0x22 :: (pk ++ [0x22, 0x5D]) := by
    simp [skipSpace]
  unfold singleString readJSON
  rw [hs, hl, hv]
  simp [skipSpace]

theorem wrapForHeader_four (c : AzureTableBackend) (pick : Option Nat) (key : GoString)
    (hc : Pristine c) (hlen : 4 ≤ key.length) :
    (c.wrapForHeader pick (key.take 4)).1 = 0x5B :: 0x22 :: (key.take 4 ++ [0x22, 0x5D]) := by
  rw [wrapForHeader_of_pristine c pick _ hc]
  have h4 : (key.take 4).length = 4 := by simp [List.length_take]; omega
  simp [List.take_take, h4]

theorem Peek_partitionkey (pk date version auth : GoString) :
    Request.Peek
        { Method := m, RequestURI := u, Body := b,
          Header := [(lit "x-ms-documentdb-partitionkey", pk), (lit "x-ms-date", date),
            (lit "x-ms-version", version), (lit "Authorization", auth)] }
        (lit "x-ms-documentdb-partitionkey") = some pk := by
  simp [Request.Peek, List.find?]

theorem Get_header (L : Lib) (c : AzureTableBackend) (w : World) (ctx : Context)
    (key : GoString) (hkey : key ≠ []) :
    ∃ r req, c.Get L w ctx key = some r ∧ r.sent = [req]
      ∧ req.Peek (lit "x-ms-documentdb-partitionkey")
        = some (c.wrapForHeader w.pick (key.take 4)).1 := by
  simp only [AzureTableBackend.Get, hkey, if_false, makePartitionKey_eq, slice_one_link,
    AzureTableBackend.Send, Request.Add, List.nil_append, List.append_assoc,
    List.singleton_append]
  cases ctx.Deadline <;> simp only [] <;> split <;>
    first
    | exact ⟨_, _, rfl, rfl, Peek_partitionkey _ _ _ _⟩
    | (split <;>
        first
        | exact ⟨_, _, rfl, rfl, Peek_partitionkey _ _ _ _⟩
        | (split <;> exact ⟨_, _, rfl, rfl, Peek_partitionkey _ _ _ _⟩))

theorem Put_header (L : Lib) (c : AzureTableBackend) (w : World) (ctx : Context)
    (key value : GoString) (ttl : Int) (hkey : key ≠ []) (hvalue : value ≠ []) :
    ∃ r req, c.Put L w ctx key value ttl = some r ∧ r.sent = [req]
      ∧ req.Peek (lit "x-ms-documentdb-partitionkey")
        = some (c.wrapForHeader w.pick (key.take 4)).1
      ∧ req.Body = (Marshal { ID := key, Value := value, PartitionKey := key.take 4 }).1 := by
  simp only [AzureTableBackend.Put, hkey, hvalue, if_false, makePartitionKey_eq, Marshal,
    AzureTableBackend.Send, Request.Add, List.nil_append, List.append_assoc,
    List.singleton_append]
  cases ctx.Deadline <;> simp only [] <;> split <;>
    exact ⟨_, _, rfl, rfl, Peek_partitionkey _ _ _ _, rfl⟩

/-- C6 (amended): on a backend whose pool is pristine, for every key of at
least four bytes whose first four bytes are valid UTF-8 and contain no control
byte, no quote and no backslash, the header value
`wrapForHeader(makePartitionKey(key))` is `["`, the partition key, `"]`, a JSON
array literal whose one element is the string `makePartitionKey(key)`; `Get`
and `Put` send it as `x-ms-documentdb-partitionkey`, and the document `Put`
posts is the marshalled `AzureValue` whose `PartitionKey` is that same
string. -/
theorem header_matches_document (L : Lib) (c : AzureTableBackend) (w : World) (ctx : Context)
    (key value : GoString) (ttl : Int) (hc : Pristine c) (hlen : 4 ≤ key.length)
    (hplain : Plain (key.take 4)) (hvalue : value ≠ []) :
    ∃ pk, c.makePartitionKey key = some pk
      ∧ (c.wrapForHeader w.pick pk).1 = lit "[\"" ++ pk ++ lit "\"]"
      ∧ singleString (c.wrapForHeader w.pick pk).1 = some pk
      ∧ (∃ r req, c.Get L w ctx key = some r ∧ r.sent = [req]
          ∧ req.Peek (lit "x-ms-documentdb-partitionkey") = some (c.wrapForHeader w.pick pk).1)
      ∧ (∃ r req, c.Put L w ctx key value ttl = some r ∧ r.sent = [req]
          ∧ req.Peek (lit "x-ms-documentdb-partitionkey") = some (c.wrapForHeader w.pick pk).1
          ∧ req.Body = (Marshal { ID := key, Value := value, PartitionKey := pk }).1) := by
  have hkey : key ≠ [] := by
    intro e
    simp [e] at hlen
  have hw := wrapForHeader_four c w.pick key hc hlen
  have l1 : lit "[\"" = [0x5B, 0x22] := by decide
  have l2 : lit "\"]" = [0x22, 0x5D] := by decide
  refine ⟨key.take 4, makePartitionKey_eq c key, ?_, ?_, Get_header L c w ctx key hkey,
    Put_header L c w ctx key value ttl hkey hvalue⟩
  · rw [hw, l1, l2]
    simp
  · rw [hw]
    exact singleString_wrapped _ hplain

/-- C6 (amended) at the key `abcdef123` on a fresh backend. -/
theorem header_matches_document_witness :
    Pristine (NewAzureBackend (lit "acct") (lit "a2V5")) ∧ 4 ≤ (lit "abcdef123").length
      ∧ Plain ((lit "abcdef123").take 4) ∧ lit "\x7b\"x\":1\x7d" ≠ []
      ∧ ∀ (L : Lib) (w : World) (ctx : Context), ∃ pk,
          (NewAzureBackend (lit "acct") (lit "a2V5")).makePartitionKey (lit "abcdef123") = some pk
          ∧ ((NewAzureBackend (lit "acct") (lit "a2V5")).wrapForHeader w.pick pk).1
              = lit "[\"" ++ pk ++ lit "\"]"
          ∧ singleString ((NewAzureBackend (lit "acct") (lit "a2V5")).wrapForHeader w.pick pk).1
              = some pk
          ∧ (∃ r req,
              (NewAzureBackend (lit "acct") (lit "a2V5")).Get L w ctx (lit "abcdef123") = some r
              ∧ r.sent = [req]
              ∧ req.Peek (lit "x-ms-documentdb-partitionkey")
                = some ((NewAzureBackend (lit "acct") (lit "a2V5")).wrapForHeader w.pick pk).1)
          ∧ (∃ r req,
              (NewAzureBackend (lit "acct") (lit "a2V5")).Put L w ctx (lit "abcdef123")
                  (lit "\x7b\"x\":1\x7d") 60 = some r
              ∧ r.sent = [req]
              ∧ req.Peek (lit "x-ms-documentdb-partitionkey")
                = some ((NewAzureBackend (lit "acct") (lit "a2V5")).wrapForHeader w.pick pk).1
              ∧ req.Body
                = (Marshal { ID := lit "abcdef123", Value := lit "\x7b\"x\":1\x7d",
                             PartitionKey := pk }).1) :=
  ⟨NewAzureBackend_pristine _ _, by decide, ⟨by decide, by decide⟩, by decide, fun L w ctx =>
    header_matches_document L _ w ctx _ _ 60 (NewAzureBackend_pristine _ _) (by decide)
      ⟨by decide, by decide⟩ (by decide)⟩

/-- C6 (counterexample): for the non-empty key `abc` the partition key is
`abc` and the header value is the eight bytes `["abc`, a zero byte, `"]`,
which is not a JSON text (a string literal may not hold a raw control byte),
so not an array literal whose element is `abc`. -/
theorem header_of_short_key :
    lit "abc" ≠ []
      ∧ (NewAzureBackend (lit "acct") (lit "a2V5")).makePartitionKey (lit "abc")
          = some (lit "abc")
      ∧ ((NewAzureBackend (lit "acct") (lit "a2V5")).wrapForHeader none (lit "abc")).1
          = [0x5B, 0x22, 0x61, 0x62, 0x63, 0x00, 0x22, 0x5D]
      ∧ (readJSON
            ((NewAzureBackend (lit "acct") (lit "a2V5")).wrapForHeader none (lit "abc")).1).isNone
          = true
      ∧ singleString ((NewAzureBackend (lit "acct") (lit "a2V5")).wrapForHeader none (lit "abc")).1
          ≠ some (lit "abc") := by
  refine ⟨by decide, by decide, by decide, ?_, ?_⟩
  · have h : ((NewAzureBackend (lit "acct") (lit "a2V5")).wrapForHeader none (lit "abc")).1
        = [0x5B, 0x22, 0x61, 0x62, 0x63, 0x00, 0x22, 0x5D] := by decide
    rw [h]
    decide
  · have h : ((NewAzureBackend (lit "acct") (lit "a2V5")).wrapForHeader none (lit "abc")).1
        = [0x5B, 0x22, 0x61, 0x62, 0x63, 0x00, 0x22, 0x5D] := by decide
    rw [h]
    decide

end Backends
